import Mathlib

/-!
Verification of the message-scanning engine of `uvm_message_search.py`
(`SearchFile.search`, together with the module-level marker constants).

The Python routine is embedded shallowly:

* a file is a `List String` of raw lines (as produced by `readlines`);
* the option dictionary is an association list of `String × PyVal`, where
  `PyVal` covers the Python values the scanner compares with `== True`
  (booleans and integers; in Python `1 == True` holds);
* the external regex engine (`re.search`) is a parameter
  `reSearch : String → String → Bool`;
* the early `return text` on seeing the end-of-test marker is modelled by
  `Except (List String) ScanState`: `.error` carries the returned output.

All functions are executable and structurally recursive so that concrete
runs reduce by `decide` / `rfl`.
-/

namespace UvmSearch

/-- Separation string (`SEPERATION` in the source). -/
def SEPERATION : String := "..."

/-- UVM end-of-test string (`END_OF_TEST`). -/
def END_OF_TEST : String := "# --- UVM Report Summary ---"

/-- UVM message-start marker (`UVM_MESSAGE`). -/
def UVM_MESSAGE : String := "# UVM_"

/-- UVM warning marker (`UVM_WARNING`). -/
def UVM_WARNING : String := "# UVM_WARNING"

/-- UVM error marker (`UVM_ERROR`). -/
def UVM_ERROR : String := "# UVM_ERROR"

/-- UVM fatal marker (`UVM_FATAL`). -/
def UVM_FATAL : String := "# UVM_FATAL"

/-- The separator output line `SEPERATION + "\n"`. -/
def sepLine : String := SEPERATION ++ "\n"

/-- Python whitespace characters stripped by `str.rstrip()`. -/
def isPySpace (c : Char) : Bool :=
  c = ' ' || c = '\t' || c = '\n' || c = '\r' || c = '\x0b' || c = '\x0c'

/-- `line.rstrip()`: drop trailing whitespace. -/
def pyRStrip (s : String) : String :=
  String.mk ((s.data.reverse.dropWhile isPySpace).reverse)

/-- `str.lower()` on one character (ASCII, which covers the markers and
    the log lines in question). -/
def pyLowerChar (c : Char) : Char := c.toLower

/-- `s.lower()`. -/
def pyLower (s : String) : String := String.mk (s.data.map pyLowerChar)

/-- Find the first `'m'`; return the remainder after it.  Fails at end of
    input or at a newline (regex `.` does not cross newlines).  Helper for
    the ANSI-escape stripper. -/
def seekM : List Char → Option (List Char)
  | [] => none
  | c :: cs => if c = 'm' then some cs else if c = '\n' then none else seekM cs

/-- One fuelled pass of `re.sub(r"\x1b(?:\[.*?m)", "", line)`: at each
    `ESC [`, the non-greedy `.*?m` removes everything up to the first `m`;
    if no `m` follows, the position does not match and scanning moves on.
    Fuel is the length of the list, which suffices since every step
    consumes at least one character. -/
def stripAnsiAux : Nat → List Char → List Char
  | 0, l => l
  | _ + 1, [] => []
  | fuel + 1, c :: rest =>
    if c = '\x1b' then
      match rest with
      | '[' :: rest2 =>
        match seekM rest2 with
        | some tl => stripAnsiAux fuel tl
        | none => c :: stripAnsiAux fuel rest
      | _ => c :: stripAnsiAux fuel rest
    else
      c :: stripAnsiAux fuel rest

/-- `re.sub(r"\x1b(?:\[.*?m)", "", line)`. -/
def stripAnsi (s : String) : String :=
  String.mk (stripAnsiAux s.data.length s.data)

/-- The line exactly as the scanner stores and prints it:
    `line.rstrip()` followed by the escape removal. -/
def cleanLine (raw : String) : String := stripAnsi (pyRStrip raw)

/-- `p.startswith`-style check: `s.startswith(p)` i.e. `p` is a prefix
    of `s`. -/
def strStartsWith (p s : String) : Bool := p.data.isPrefixOf s.data

/-- List infix check used to model Python's `p in s` substring test. -/
def listIsInfix (p : List Char) : List Char → Bool
  | [] => p.isEmpty
  | c :: rest => p.isPrefixOf (c :: rest) || listIsInfix p rest

/-- Python's `p in s` substring containment. -/
def strContains (p s : String) : Bool := listIsInfix p.data s.data

/-- `'{number:<{number_size}}'.format(...)`: the decimal number,
    left-justified and space-padded to the given width. -/
def formatLineNumber (n w : Nat) : String :=
  let s := Nat.repr n
  s ++ String.mk (List.replicate (w - s.length) ' ')

/-- Python values that can appear in the option dictionary.  The GUI
    passes booleans and one integer; integers also matter because in
    Python `1 == True`. -/
inductive PyVal where
  | pyBool : Bool → PyVal
  | pyInt : Int → PyVal
  deriving DecidableEq, Repr

/-- Python `v == True` for an option value. -/
def pyEqTrue : PyVal → Bool
  | .pyBool b => b
  | .pyInt n => n == 1

/-- Python `int(v)` for an option value. -/
def pyToInt : PyVal → Int
  | .pyBool b => if b then 1 else 0
  | .pyInt n => n

/-- Dictionary lookup (`"KEY" in d.keys()` + `d["KEY"]`). -/
def lookupOpt (opts : List (String × PyVal)) (k : String) : Option PyVal :=
  match opts with
  | [] => none
  | (k', v) :: rest => if k' == k then some v else lookupOpt rest k

/-- `"KEY" in search_options.keys() and search_options["KEY"] == True`. -/
def optEnabled (opts : List (String × PyVal)) (k : String) : Bool :=
  match lookupOpt opts k with
  | some v => pyEqTrue v
  | none => false

/-- The effective case sensitivity: the decoded `SEARCH_CASE_SENSITIVE`
    flag, forced to `True` when `SEARCH_REGEX` is enabled. -/
def optEffectiveCase (opts : List (String × PyVal)) : Bool :=
  optEnabled opts "SEARCH_REGEX" || optEnabled opts "SEARCH_CASE_SENSITIVE"

/-- The decoded `SEARCH_CONTEXT` value (`int(...)`, defaulting to 0). -/
def optContext (opts : List (String × PyVal)) : Int :=
  match lookupOpt opts "SEARCH_CONTEXT" with
  | some v => pyToInt v
  | none => 0

/-- The per-call configuration of `SearchFile.search` after option
    decoding, marker lower-casing and line-count measurement. -/
structure Config where
  reSearch : String → String → Bool
  searchRegex : Bool
  searchCaseSensitive : Bool
  searchExclusive : Bool
  alwaysShowErrors : Bool
  alwaysShowWarnings : Bool
  showLineNumbers : Bool
  searchContext : Int
  endOfTestString : String
  uvmMessageString : String
  uvmWarningString : String
  uvmErrorString : String
  uvmFatalString : String
  searchStrings : List String
  searchStringsCount : Nat
  lineNumberWidth : Nat

/-- Option decoding and normalisation, lines 657–728 of the source:
    each option defaults to off and is enabled only by a value `== True`;
    `SEARCH_REGEX` also forces case sensitivity; `SEARCH_CONTEXT` passes
    through `int(...)`; when case-insensitive, the five markers and all
    search strings are lower-cased; `line_number_width` is the width of
    the decimal line count. -/
def mkConfig (reSearch : String → String → Bool) (searchStrings : List String)
    (searchOptions : List (String × PyVal)) (fileLineCount : Nat) : Config :=
  let cse := optEffectiveCase searchOptions
  { reSearch := reSearch
    searchRegex := optEnabled searchOptions "SEARCH_REGEX"
    searchCaseSensitive := cse
    searchExclusive := optEnabled searchOptions "SEARCH_EXCLUSIVE"
    alwaysShowErrors := optEnabled searchOptions "SHOW_ERRORS"
    alwaysShowWarnings := optEnabled searchOptions "SHOW_WARNINGS"
    showLineNumbers := optEnabled searchOptions "SHOW_LINE_NUMBERS"
    searchContext := optContext searchOptions
    endOfTestString := if cse then END_OF_TEST else pyLower END_OF_TEST
    uvmMessageString := if cse then UVM_MESSAGE else pyLower UVM_MESSAGE
    uvmWarningString := if cse then UVM_WARNING else pyLower UVM_WARNING
    uvmErrorString := if cse then UVM_ERROR else pyLower UVM_ERROR
    uvmFatalString := if cse then UVM_FATAL else pyLower UVM_FATAL
    searchStrings := if cse then searchStrings else searchStrings.map pyLower
    searchStringsCount := searchStrings.length
    lineNumberWidth := (Nat.repr fileLineCount).length }

/-- The comparison copy `fline` of a (cleaned) line. -/
def flineOf (cfg : Config) (line : String) : String :=
  if cfg.searchCaseSensitive then line else pyLower line

/-- The mutable loop state of `SearchFile.search`. -/
structure ScanState where
  messages : List (List (String × String))
  buffer : List (String × String)
  text : List String
  matchesDict : List String
  matchFlag : Bool
  last : Bool
  context : Int
  lineNumber : Nat
  deriving Repr

/-- The initial loop state. -/
def initState : ScanState :=
  { messages := [], buffer := [], text := [], matchesDict := [],
    matchFlag := false, last := false, context := 0, lineNumber := 0 }

/-- Python list slicing `l[a:]` (used as `messages[-(search_context+1):]`):
    a non-negative start drops that many from the front, a negative start
    keeps the last `-a` elements (clipped at the full list). -/
def pySliceFrom (a : Int) (l : List α) : List α :=
  if 0 ≤ a then l.drop a.toNat else l.drop ((l.length : Int) + a).toNat

/-- `matches[search_string] = 1`: dictionary key insertion. -/
def insertKey (s : String) (d : List String) : List String :=
  if d.contains s then d else d ++ [s]

/-- Whether one search string hits the current line: `re.search` against
    the original-case line in regex mode, substring containment against
    the comparison copy otherwise. -/
def termHit (cfg : Config) (line fline s : String) : Bool :=
  if cfg.searchRegex then cfg.reSearch s line else strContains s fline

/-- The exclusive-mode dictionary update loop over the search strings. -/
def updMatches (cfg : Config) (line fline : String) :
    List String → List String → List String
  | [], d => d
  | s :: rest, d =>
    updMatches cfg line fline rest (if termHit cfg line fline s then insertKey s d else d)

/-- The inclusive-mode match loop over the search strings. -/
def orMatch (cfg : Config) (line fline : String) : List String → Bool → Bool
  | [], m => m
  | s :: rest, m =>
    orMatch cfg line fline rest (if termHit cfg line fline s then true else m)

/-- Lines 805–836 of the source: the force-match rules for the fatal,
    error and warning markers followed by the term-matching section, all
    applied to one line.  Takes and returns the pair
    (`matches` dictionary, `match` flag). -/
def flagStep (cfg : Config) (dm : List String × Bool) (line fline : String) :
    List String × Bool :=
  let m1 := if strStartsWith cfg.uvmFatalString fline then true else dm.2
  let m2 := if cfg.alwaysShowErrors && strStartsWith cfg.uvmErrorString fline then true else m1
  let m3 := if cfg.alwaysShowWarnings && strStartsWith cfg.uvmWarningString fline then true else m2
  if cfg.searchExclusive then
    let d := updMatches cfg line fline cfg.searchStrings dm.1
    let m4 := if d.length == cfg.searchStringsCount && decide (0 < cfg.searchStringsCount)
      then true else m3
    (d, m4)
  else
    (dm.1, orMatch cfg line fline cfg.searchStrings m3)

/-- Rendering of one stored `(location, entry)` pair as an output line,
    honouring `show_line_numbers`. -/
def renderEntry (cfg : Config) (p : String × String) : String :=
  if cfg.showLineNumbers then p.1 ++ ": " ++ p.2 ++ "\n" else p.2 ++ "\n"

/-- Rendering of one stored message block. -/
def renderBlock (cfg : Config) (b : List (String × String)) : List String :=
  b.map (renderEntry cfg)

/-- Rendering of the whole message history, in order. -/
def renderMessages (cfg : Config) (msgs : List (List (String × String))) : List String :=
  (msgs.map (renderBlock cfg)).flatten

/-- Lines 747–790 of the source: the handling of a block boundary.
    Close a non-empty buffer into the history, trim the history, flush
    the history when the previous block matched or a context countdown is
    active (inserting the separator unless the previous flush was
    adjacent), update the context countdown and reset the match flag. -/
def boundaryUpdate (cfg : Config) (st : ScanState) : ScanState :=
  let msgsA := if 0 < st.buffer.length then st.messages ++ [st.buffer] else st.messages
  let msgsB := pySliceFrom (-(cfg.searchContext + 1)) msgsA
  let doFlush := st.matchFlag || 0 < st.context
  let textF :=
    if doFlush then
      (if !st.last then st.text ++ [sepLine] else st.text) ++ renderMessages cfg msgsB
    else
      st.text
  let msgsC := if doFlush then [] else msgsB
  let ctx1 := if 0 < st.context then st.context - 1 else st.context
  let ctx2 := if st.matchFlag then cfg.searchContext else ctx1
  { st with
      messages := msgsC
      buffer := []
      text := textF
      last := doFlush
      context := ctx2
      matchFlag := false }

/-- The body of the `for line in file` loop (lines 731–836).  A returned
    `.error t` models the early `return text` taken when the comparison
    copy contains the end-of-test string. -/
def processLine (cfg : Config) (st : ScanState) (rawLine : String) :
    Except (List String) ScanState :=
  let lineNumber := st.lineNumber + 1
  let line := cleanLine rawLine
  let fline := flineOf cfg line
  let isHeader := strStartsWith cfg.uvmMessageString fline
  let isEot := strContains cfg.endOfTestString fline
  let st1 := if isHeader || isEot then boundaryUpdate cfg st else st
  if isEot then
    .error st1.text
  else
    let buffer2 := st1.buffer ++ [(formatLineNumber lineNumber cfg.lineNumberWidth, line)]
    let dm := flagStep cfg (st1.matchesDict, st1.matchFlag) line fline
    .ok { st1 with
            buffer := buffer2
            matchesDict := dm.1
            matchFlag := dm.2
            lineNumber := lineNumber }

/-- The flush after the loop (lines 838–865): print the remaining
    matches, dropping the single oldest history entry first. -/
def postLoop (cfg : Config) (st : ScanState) : List String :=
  if st.matchFlag || 0 < st.context then
    let t1 := if !st.last then st.text ++ [sepLine] else st.text
    let msgs1 := if 0 < st.messages.length then st.messages.drop 1 else st.messages
    let msgs2 := pySliceFrom (-(cfg.searchContext + 1)) msgs1
    t1 ++ renderMessages cfg msgs2 ++ renderBlock cfg st.buffer
  else
    st.text

/-- The whole scan loop over the remaining lines, ending in the
    post-loop flush (or in the early return). -/
def processLines (cfg : Config) (st : ScanState) : List String → List String
  | [] => postLoop cfg st
  | l :: rest =>
    match processLine cfg st l with
    | .error t => t
    | .ok st' => processLines cfg st' rest

/-- Running a list of lines without finishing: `.ok` is the state after
    the lines, `.error` the output of an early return.  `processLines`
    over an append factors through this. -/
def runList (cfg : Config) (st : ScanState) : List String → Except (List String) ScanState
  | [] => .ok st
  | l :: rest =>
    match processLine cfg st l with
    | .error t => .error t
    | .ok st' => runList cfg st' rest

end UvmSearch

namespace SearchFile

open UvmSearch

/-- `SearchFile.search`: scan the file's lines for the search strings
    under the given options.  The file is given as its list of raw lines;
    the regex engine is the `reSearch` parameter. -/
def search (reSearch : String → String → Bool) (fileLines : List String)
    (searchStrings : List String) (searchOptions : List (String × PyVal)) :
    List String :=
  processLines (mkConfig reSearch searchStrings searchOptions fileLines.length)
    initState fileLines

end SearchFile

namespace UvmSearch

/-- A trivial regex engine for concrete, non-regex runs. -/
def reNone : String → String → Bool := fun _ _ => false

/-- A marker string as the scanner compares it under the given options:
    lower-cased unless the effective case sensitivity is on. -/
def markerUnder (opts : List (String × PyVal)) (m : String) : String :=
  if optEffectiveCase opts then m else pyLower m

/-- The comparison copy of a raw line under the given options. -/
def flineUnder (opts : List (String × PyVal)) (raw : String) : String :=
  if optEffectiveCase opts then cleanLine raw else pyLower (cleanLine raw)

/-- Whether a raw line's comparison copy contains the end-of-test marker
    under the given options (the early-return trigger). -/
def isEotLineOpts (opts : List (String × PyVal)) (raw : String) : Bool :=
  strContains (markerUnder opts END_OF_TEST) (flineUnder opts raw)

/-- Whether a raw line's comparison copy starts with the message marker
    under the given options (the block-header test). -/
def isHeaderLineOpts (opts : List (String × PyVal)) (raw : String) : Bool :=
  strStartsWith (markerUnder opts UVM_MESSAGE) (flineUnder opts raw)

/-- The raw lines of one message block, given as header line plus
    non-header tail. -/
def blockLines (b : String × List String) : List String := b.1 :: b.2

/-- The raw lines of a sequence of message blocks. -/
def blocksLines (bs : List (String × List String)) : List String :=
  (bs.map blockLines).flatten

/-- The `(location, entry)` pairs the scanner buffers for a run of lines
    whose first line is line `start + 1` of a file of width `w`. -/
def numberFrom (w start : Nat) : List String → List (String × String)
  | [] => []
  | l :: rest => (formatLineNumber (start + 1) w, cleanLine l) :: numberFrom w (start + 1) rest

/-- The buffered form of a sequence of blocks starting at line
    `start + 1`. -/
def numberBlocks (w start : Nat) : List (String × List String) → List (List (String × String))
  | [] => []
  | b :: rest =>
    numberFrom w start (blockLines b) ::
      numberBlocks w (start + (blockLines b).length) rest

/-- The match-state machine of the scan loop, run over a list of raw
    lines: the `(matches, match)` pair evolves by `flagStep` on each
    line, exactly as in the loop body. -/
def flagRun (cfg : Config) (dm : List String × Bool) : List String → List String × Bool
  | [] => dm
  | l :: rest =>
    flagRun cfg (flagStep cfg dm (cleanLine l) (flineOf cfg (cleanLine l))) rest

/-- The per-block match flags: each block starts with a freshly reset
    flag but inherits the (never-cleared) matches dictionary.  Returns
    the final dictionary and the per-block flag list. -/
def blockFlags (cfg : Config) (d : List String) :
    List (String × List String) → List String × List Bool
  | [] => (d, [])
  | b :: rest =>
    let dm := flagRun cfg (d, false) (blockLines b)
    let r := blockFlags cfg dm.1 rest
    (r.1, dm.2 :: r.2)

/-- `messages.append(buffer)` guarded by `len(buffer) > 0`. -/
def closeIf (closed : List (List (String × String))) (buf : List (String × String)) :
    List (List (String × String)) :=
  if 0 < buf.length then closed ++ [buf] else closed

/-- The last `K` elements of a list (the trimmed history window). -/
def winN (K : Nat) (l : List α) : List α := l.drop (l.length - K)

/-- Folding `closeIf`/numbering over a run of blocks: returns the full
    (untrimmed) closed-block history, the numbered buffer of the last
    block, and the next line index. -/
def preClosed (w : Nat) (closed : List (List (String × String)))
    (buf : List (String × String)) (n : Nat) :
    List (String × List String) →
      List (List (String × String)) × List (String × String) × Nat
  | [] => (closed, buf, n)
  | b :: rest =>
    preClosed w (closeIf closed buf) (numberFrom w n (blockLines b))
      (n + (blockLines b).length) rest

/-- The scan state after feeding a run of non-boundary lines `P` to a
    fresh scan (derived form of the loop state, used to phrase the
    staged runs of the loop). -/
def stAfterP (cfg : Config) (P : List String) : ScanState :=
  { initState with
    buffer := initState.buffer ++ numberFrom cfg.lineNumberWidth initState.lineNumber P
    matchesDict := (flagRun cfg (initState.matchesDict, initState.matchFlag) P).1
    matchFlag := (flagRun cfg (initState.matchesDict, initState.matchFlag) P).2
    lineNumber := initState.lineNumber + P.length }

/-- The scan state after additionally feeding a run of whole
    non-matching, non-flushing blocks. -/
def stAfterBlocks (cfg : Config) (N : Nat) (closedAbs : List (List (String × String)))
    (st : ScanState) (bs : List (String × List String)) : ScanState :=
  { st with
    messages := winN (N + 1) (preClosed cfg.lineNumberWidth closedAbs st.buffer st.lineNumber bs).1
    buffer := (preClosed cfg.lineNumberWidth closedAbs st.buffer st.lineNumber bs).2.1
    matchesDict := (blockFlags cfg st.matchesDict bs).1
    matchFlag := false
    last := false
    lineNumber := (preClosed cfg.lineNumberWidth closedAbs st.buffer st.lineNumber bs).2.2 }

/-- The scan state after additionally feeding one whole block (closing
    the previous buffer without a flush). -/
def stAfterBlock (cfg : Config) (N : Nat) (closedAbs : List (List (String × String)))
    (st : ScanState) (b : String × List String) : ScanState :=
  { st with
    messages := winN (N + 1) (closeIf closedAbs st.buffer)
    buffer := numberFrom cfg.lineNumberWidth st.lineNumber (blockLines b)
    matchesDict := (flagRun cfg (st.matchesDict, false) (blockLines b)).1
    matchFlag := (flagRun cfg (st.matchesDict, false) (blockLines b)).2
    last := false
    lineNumber := st.lineNumber + (blockLines b).length }

/-- The scan state just before the boundary that flushes the matching
    block, in the staged decomposition of a scan whose prefix is a run of
    plain lines `P`, then the blocks `bs`, then the matching block `bk`. -/
def c4State (cfg : Config) (N : Nat) (P : List String)
    (bs : List (String × List String)) (bk : String × List String) : ScanState :=
  stAfterBlock cfg N
    (preClosed cfg.lineNumberWidth [] (numberFrom cfg.lineNumberWidth 0 P)
      (0 + P.length) bs).1
    (stAfterBlocks cfg N [] (stAfterP cfg P) bs) bk

/-- Forgetting everything term-related in a configuration: the regex
    engine, the regex and exclusive mode switches, and the term list.
    With an empty term set the scan only depends on the configuration
    through this projection. -/
def eraseTerms (cfg : Config) : Config :=
  { cfg with
    reSearch := reNone
    searchRegex := false
    searchExclusive := false
    searchStrings := []
    searchStringsCount := 0 }

/-- Two adjacent output lines are never both the separator. -/
def sepR : String → String → Prop := fun a b => a ≠ sepLine ∨ b ≠ sepLine

/-- Well-formed output text: separators are never doubled, the first
    output line (if any) is the separator, and the last one never is. -/
def GoodText (t : List String) : Prop :=
  List.Chain' sepR t ∧ (t ≠ [] → t.head? = some sepLine) ∧ ∀ x ∈ t.getLast?, x ≠ sepLine

/-- The separator-placement invariant of the scan loop: a pending match
    or context countdown implies a non-empty buffer, stored blocks are
    non-empty, no stored line is the bare separator string, the text so
    far is well formed, and `last` is only set right after a flush. -/
def InvState (st : ScanState) : Prop :=
  (st.matchFlag = true ∨ 0 < st.context → st.buffer ≠ []) ∧
  (∀ b ∈ st.messages, b ≠ []) ∧
  (∀ b ∈ st.messages, ∀ p ∈ b, p.2 ≠ SEPERATION) ∧
  (∀ p ∈ st.buffer, p.2 ≠ SEPERATION) ∧
  GoodText st.text ∧
  (st.text = [] → st.last = false)

end UvmSearch

open UvmSearch

theorem lookupOpt_cons_ne {k k' : String} (v : PyVal) (opts : List (String × PyVal))
    (h : (k == k') = false) :
    lookupOpt ((k, v) :: opts) k' = lookupOpt opts k' := by
  simp [lookupOpt, h]

theorem optEnabled_cons_ne {k k' : String} (v : PyVal) (opts : List (String × PyVal))
    (h : (k == k') = false) :
    optEnabled ((k, v) :: opts) k' = optEnabled opts k' := by
  unfold optEnabled
  rw [lookupOpt_cons_ne v opts h]

/-- C1: in exclusive (AND) mode the dictionary of matched terms is never
    reset at a block boundary, so it persists across blocks: with terms
    {"aaa","bbb"}, after a first block containing "bbb", the second block
    containing only "aaa" (and even the third block containing neither
    term) is matched and printed. -/
theorem c1_and_mode_match_set_persists_across_blocks :
    SearchFile.search reNone ["# UVM_INFO bbb", "# UVM_INFO aaa", "# UVM_ZZZ"]
      ["aaa", "bbb"] [("SEARCH_EXCLUSIVE", PyVal.pyBool true)] =
      ["...\n", "# UVM_INFO aaa\n", "# UVM_ZZZ\n"] ∧
    strContains "bbb" (pyLower "# UVM_INFO aaa") = false ∧
    strContains "aaa" (pyLower "# UVM_ZZZ") = false ∧
    strContains "bbb" (pyLower "# UVM_ZZZ") = false := by
  refine ⟨by decide, by decide, by decide, by decide⟩

/-- C2 counterexample: on this input the very first output line is the
    `"..."` separator, immediately preceding the very first printed run,
    so the separator is not restricted to positions between runs. -/
theorem c2_counterexample_separator_before_first_run :
    SearchFile.search reNone ["# UVM_FATAL boom"] [] [] =
      [sepLine, "# UVM_FATAL boom\n"] := by
  decide

/-- C4 counterexample: context_count = 1 and the single matching block is
    the final, unterminated block (position k = 2).  The claimed window is
    blocks 1..2, but the post-loop flush drops the oldest history entry,
    so block 1 never appears in the output. -/
theorem c4_counterexample_context_block_dropped_at_tail :
    SearchFile.search reNone ["# UVM_INFO one", "# UVM_INFO two zzz"] ["zzz"]
      [("SEARCH_CONTEXT", PyVal.pyInt 1)] = ["...\n", "# UVM_INFO two zzz\n"] ∧
    "# UVM_INFO one\n" ∉
      SearchFile.search reNone ["# UVM_INFO one", "# UVM_INFO two zzz"] ["zzz"]
        [("SEARCH_CONTEXT", PyVal.pyInt 1)] := by
  refine ⟨by decide, by decide⟩

/-- C5: the spec's worked example, evaluated on the embedding. -/
theorem c5_example_run :
    SearchFile.search reNone
      ["# UVM_INFO hello", "line X", "# UVM_ERROR bad thing",
       "# --- UVM Report Summary ---"] []
      [("SEARCH_CASE_SENSITIVE", PyVal.pyBool false),
       ("SEARCH_EXCLUSIVE", PyVal.pyBool false),
       ("SHOW_ERRORS", PyVal.pyBool true),
       ("SHOW_WARNINGS", PyVal.pyBool false),
       ("SHOW_LINE_NUMBERS", PyVal.pyBool false),
       ("SEARCH_REGEX", PyVal.pyBool false),
       ("SEARCH_CONTEXT", PyVal.pyInt 0)] =
      ["...\n", "# UVM_ERROR bad thing\n"] := by
  decide

/-- C6 counterexample: a negative `SEARCH_CONTEXT` is not equivalent to
    0 — with context -1 the history is never trimmed, so a match prints
    all preceding blocks. -/
theorem c6_counterexample_negative_context_not_zero :
    SearchFile.search reNone ["# UVM_INFO one", "# UVM_INFO two xky", "# UVM_INFO three"]
      ["xky"] [("SEARCH_CONTEXT", PyVal.pyInt (-1))] ≠
    SearchFile.search reNone ["# UVM_INFO one", "# UVM_INFO two xky", "# UVM_INFO three"]
      ["xky"] [("SEARCH_CONTEXT", PyVal.pyInt 0)] := by
  decide

/-- C6 (amended): the scanner does not clamp `context_count`; a negative
    value is used literally.  With context -1 the history-trimming slice
    `messages[-(-1+1):]` keeps the whole history, so a match prints every
    preceding block, unlike context 0. -/
theorem c6_negative_context_used_literally :
    (∀ msgs : List (List (String × String)), pySliceFrom (-((-1 : Int) + 1)) msgs = msgs) ∧
    SearchFile.search reNone ["# UVM_INFO one", "# UVM_INFO two xky", "# UVM_INFO three"]
      ["xky"] [("SEARCH_CONTEXT", PyVal.pyInt (-1))] =
      ["...\n", "# UVM_INFO one\n", "# UVM_INFO two xky\n"] ∧
    SearchFile.search reNone ["# UVM_INFO one", "# UVM_INFO two xky", "# UVM_INFO three"]
      ["xky"] [("SEARCH_CONTEXT", PyVal.pyInt 0)] =
      ["...\n", "# UVM_INFO two xky\n"] := by
  refine ⟨fun msgs => by simp [pySliceFrom], by decide, by decide⟩

/-- C9 counterexample: with an empty term set, context_count = 1 and a
    fatal line in the final, unterminated block, the preceding context
    block is dropped by the post-loop flush, so the output does not
    contain the force-shown block's full context. -/
theorem c9_counterexample_forced_block_context_dropped :
    SearchFile.search reNone ["# UVM_INFO one", "# UVM_FATAL boom"] []
      [("SEARCH_CONTEXT", PyVal.pyInt 1)] = ["...\n", "# UVM_FATAL boom\n"] ∧
    "# UVM_INFO one\n" ∉
      SearchFile.search reNone ["# UVM_INFO one", "# UVM_FATAL boom"] []
        [("SEARCH_CONTEXT", PyVal.pyInt 1)] := by
  refine ⟨by decide, by decide⟩

/-- C10 counterexample: a recognized option that is present with the
    integer value 1 — a value other than `True` — is nevertheless treated
    as enabled (Python `1 == True`), not as the disabled default. -/
theorem c10_counterexample_python_one_equals_true :
    SearchFile.search reNone ["# UVM_ERROR z", "# UVM_INFO q"] []
      [("SHOW_ERRORS", PyVal.pyInt 1)] = ["...\n", "# UVM_ERROR z\n"] ∧
    SearchFile.search reNone ["# UVM_ERROR z", "# UVM_INFO q"] [] [] =
      ([] : List String) := by
  refine ⟨by decide, by decide⟩

/-- C10 (amended): the scan depends on the option dictionary only through
    the Python-equality-with-True decoding of the six recognized boolean
    keys and `int(...)` of `SEARCH_CONTEXT`.  In particular unrecognized
    keys are ignored, and a recognized key that is absent or carries a
    value not Python-equal to `True` behaves as the disabled default. -/
theorem c10_option_decoding_behavior (re : String → String → Bool)
    (lines terms : List String) (opts₁ opts₂ : List (String × PyVal))
    (hcs : optEnabled opts₁ "SEARCH_CASE_SENSITIVE" = optEnabled opts₂ "SEARCH_CASE_SENSITIVE")
    (hex : optEnabled opts₁ "SEARCH_EXCLUSIVE" = optEnabled opts₂ "SEARCH_EXCLUSIVE")
    (herr : optEnabled opts₁ "SHOW_ERRORS" = optEnabled opts₂ "SHOW_ERRORS")
    (hwarn : optEnabled opts₁ "SHOW_WARNINGS" = optEnabled opts₂ "SHOW_WARNINGS")
    (hline : optEnabled opts₁ "SHOW_LINE_NUMBERS" = optEnabled opts₂ "SHOW_LINE_NUMBERS")
    (hregex : optEnabled opts₁ "SEARCH_REGEX" = optEnabled opts₂ "SEARCH_REGEX")
    (hctx : optContext opts₁ = optContext opts₂) :
    SearchFile.search re lines terms opts₁ = SearchFile.search re lines terms opts₂ := by
  unfold SearchFile.search
  have hcfg : mkConfig re terms opts₁ lines.length = mkConfig re terms opts₂ lines.length := by
    simp only [mkConfig, optEffectiveCase, hcs, hex, herr, hwarn, hline, hregex, hctx]
  rw [hcfg]

/-- C10 witness: an unrecognized key is ignored, the integer 1 enables a
    recognized key, and `int(False)` is the default context 0. -/
theorem c10_option_decoding_behavior_witness :
    SearchFile.search reNone ["# UVM_ERROR z", "# UVM_INFO q"] []
      [("COLOR_MODE", PyVal.pyBool true), ("SHOW_ERRORS", PyVal.pyInt 1),
       ("SEARCH_CONTEXT", PyVal.pyBool false)] =
    SearchFile.search reNone ["# UVM_ERROR z", "# UVM_INFO q"] []
      [("SHOW_ERRORS", PyVal.pyBool true)] :=
  c10_option_decoding_behavior reNone _ _ _ _ (by decide) (by decide) (by decide)
    (by decide) (by decide) (by decide) (by decide)

/-- C7: with `SEARCH_REGEX` enabled the decoded case sensitivity is
    forced to `True`, so the `SEARCH_CASE_SENSITIVE` entry is irrelevant:
    prepending any value for it leaves the scan output unchanged. -/
theorem c7_regex_mode_ignores_case_flag (re : String → String → Bool)
    (lines terms : List String) (opts : List (String × PyVal)) (v : PyVal)
    (hregex : optEnabled opts "SEARCH_REGEX" = true) :
    SearchFile.search re lines terms (("SEARCH_CASE_SENSITIVE", v) :: opts) =
    SearchFile.search re lines terms opts := by
  unfold SearchFile.search
  have e1 : optEnabled (("SEARCH_CASE_SENSITIVE", v) :: opts) "SEARCH_REGEX" =
      optEnabled opts "SEARCH_REGEX" := optEnabled_cons_ne v opts (by decide)
  have e2 : optEnabled (("SEARCH_CASE_SENSITIVE", v) :: opts) "SEARCH_EXCLUSIVE" =
      optEnabled opts "SEARCH_EXCLUSIVE" := optEnabled_cons_ne v opts (by decide)
  have e3 : optEnabled (("SEARCH_CASE_SENSITIVE", v) :: opts) "SHOW_ERRORS" =
      optEnabled opts "SHOW_ERRORS" := optEnabled_cons_ne v opts (by decide)
  have e4 : optEnabled (("SEARCH_CASE_SENSITIVE", v) :: opts) "SHOW_WARNINGS" =
      optEnabled opts "SHOW_WARNINGS" := optEnabled_cons_ne v opts (by decide)
  have e5 : optEnabled (("SEARCH_CASE_SENSITIVE", v) :: opts) "SHOW_LINE_NUMBERS" =
      optEnabled opts "SHOW_LINE_NUMBERS" := optEnabled_cons_ne v opts (by decide)
  have ectx : optContext (("SEARCH_CASE_SENSITIVE", v) :: opts) = optContext opts := by
    unfold optContext
    rw [lookupOpt_cons_ne v opts (by decide)]
  have ec : optEffectiveCase (("SEARCH_CASE_SENSITIVE", v) :: opts) = optEffectiveCase opts := by
    unfold optEffectiveCase
    rw [e1, hregex]
    simp
  have hcfg : mkConfig re terms (("SEARCH_CASE_SENSITIVE", v) :: opts) lines.length =
      mkConfig re terms opts lines.length := by
    simp only [mkConfig, ec, e1, e2, e3, e4, e5, ectx]
  rw [hcfg]

/-- C7 witness: the regex-mode scan is unchanged by an explicit
    case-sensitivity entry. -/
theorem c7_regex_mode_ignores_case_flag_witness :
    SearchFile.search reNone ["# UVM_FATAL x"] []
      (("SEARCH_CASE_SENSITIVE", PyVal.pyBool false) :: [("SEARCH_REGEX", PyVal.pyBool true)]) =
    SearchFile.search reNone ["# UVM_FATAL x"] [] [("SEARCH_REGEX", PyVal.pyBool true)] :=
  c7_regex_mode_ignores_case_flag reNone _ _ _ _ (by decide)

theorem processLine_eot (cfg : Config) (st : ScanState) (l : String)
    (h : strContains cfg.endOfTestString (flineOf cfg (cleanLine l)) = true) :
    processLine cfg st l = .error (boundaryUpdate cfg st).text := by
  simp [processLine, h]

/-- C3: the early return at the end-of-test marker.  Scanning a file that
    contains an end-of-test line `e` stops at `e`: the output equals the
    output of processing only the lines up to and including `e`, and is
    therefore unchanged when the content of the later lines is replaced
    arbitrarily (their number is kept fixed, since only the line count
    feeds the line-number padding width). -/
theorem c3_end_of_test_truncates (re : String → String → Bool)
    (terms : List String) (opts : List (String × PyVal))
    (pre : List String) (e : String) (rest rest' : List String)
    (heot : isEotLineOpts opts e = true)
    (hlen : rest.length = rest'.length) :
    SearchFile.search re (pre ++ e :: rest) terms opts =
      SearchFile.search re (pre ++ e :: rest') terms opts ∧
    SearchFile.search re (pre ++ e :: rest) terms opts =
      processLines (mkConfig re terms opts (pre ++ e :: rest).length)
        initState (pre ++ [e]) := by
  have hL : (pre ++ e :: rest).length = (pre ++ e :: rest').length := by
    simp [hlen]
  have key : ∀ (n : Nat) (st : ScanState) (p ls : List String),
      processLines (mkConfig re terms opts n) st (p ++ e :: ls) =
      processLines (mkConfig re terms opts n) st (p ++ [e]) := by
    intro n st p ls
    have heot' : strContains (mkConfig re terms opts n).endOfTestString
        (flineOf (mkConfig re terms opts n) (cleanLine e)) = true := heot
    induction p generalizing st with
    | nil =>
      simp [processLines, processLine_eot (mkConfig re terms opts n) st e heot']
    | cons q p ih =>
      simp only [List.cons_append, processLines]
      cases processLine (mkConfig re terms opts n) st q with
      | error t => rfl
      | ok st' => exact ih st'
  constructor
  · unfold SearchFile.search
    rw [key _ initState pre rest, hL, key _ initState pre rest']
  · unfold SearchFile.search
    rw [key _ initState pre rest]

/-- C3 witness: junk after the report summary is irrelevant, and the scan
    equals the truncated scan. -/
theorem c3_end_of_test_truncates_witness :
    (SearchFile.search reNone ([] ++ "# --- UVM Report Summary ---" :: ["after A"]) [] [] =
      SearchFile.search reNone ([] ++ "# --- UVM Report Summary ---" :: ["after B"]) [] []) ∧
    (SearchFile.search reNone ([] ++ "# --- UVM Report Summary ---" :: ["after A"]) [] [] =
      processLines (mkConfig reNone [] []
          ([] ++ "# --- UVM Report Summary ---" :: ["after A"]).length)
        initState ([] ++ ["# --- UVM Report Summary ---"])) :=
  c3_end_of_test_truncates reNone [] [] [] "# --- UVM Report Summary ---"
    ["after A"] ["after B"] (by decide) (by decide)

theorem prefix_conflict {p q s : List Char} (hlen : p.length ≤ q.length)
    (hne : q.take p.length ≠ p) (hp : p.isPrefixOf s = true)
    (hq : q.isPrefixOf s = true) : False := by
  rw [List.isPrefixOf_iff_prefix, List.prefix_iff_eq_take] at hp hq
  apply hne
  rw [hq, List.take_take, Nat.min_eq_left hlen, ← hp]

theorem prefix_extend {p q : List Char} (hpq : p <+: q) {s : List Char}
    (hq : q.isPrefixOf s = true) : p.isPrefixOf s = true := by
  rw [List.isPrefixOf_iff_prefix] at hq ⊢
  exact hpq.trans hq

theorem startsWith_excl (p q f : String) (hlen : p.data.length ≤ q.data.length)
    (hne : q.data.take p.data.length ≠ p.data)
    (hp : strStartsWith p f = true) : strStartsWith q f = false := by
  cases hq : strStartsWith q f
  · rfl
  · exact (prefix_conflict hlen hne hp hq).elim

theorem startsWith_excl' (p q f : String) (hlen : p.data.length ≤ q.data.length)
    (hne : q.data.take p.data.length ≠ p.data)
    (hq : strStartsWith q f = true) : strStartsWith p f = false := by
  cases hp : strStartsWith p f
  · rfl
  · exact (prefix_conflict hlen hne hp hq).elim

theorem startsWith_mono (p q f : String) (hpq : p.data <+: q.data)
    (hq : strStartsWith q f = true) : strStartsWith p f = true :=
  prefix_extend hpq hq

theorem err_not_fatal (opts : List (String × PyVal)) (f : String)
    (h : strStartsWith (markerUnder opts UVM_ERROR) f = true) :
    strStartsWith (markerUnder opts UVM_FATAL) f = false := by
  cases hb : optEffectiveCase opts <;>
    simp only [markerUnder, hb, if_true, if_false, Bool.false_eq_true, ite_false, ite_true] at h ⊢ <;>
    exact startsWith_excl _ _ f (by decide) (by decide) h

theorem err_not_warning (opts : List (String × PyVal)) (f : String)
    (h : strStartsWith (markerUnder opts UVM_ERROR) f = true) :
    strStartsWith (markerUnder opts UVM_WARNING) f = false := by
  cases hb : optEffectiveCase opts <;>
    simp only [markerUnder, hb, if_true, if_false, Bool.false_eq_true, ite_false, ite_true] at h ⊢ <;>
    exact startsWith_excl _ _ f (by decide) (by decide) h

theorem warn_not_fatal (opts : List (String × PyVal)) (f : String)
    (h : strStartsWith (markerUnder opts UVM_WARNING) f = true) :
    strStartsWith (markerUnder opts UVM_FATAL) f = false := by
  cases hb : optEffectiveCase opts <;>
    simp only [markerUnder, hb, if_true, if_false, Bool.false_eq_true, ite_false, ite_true] at h ⊢ <;>
    exact startsWith_excl' _ _ f (by decide) (by decide) h

theorem warn_not_error (opts : List (String × PyVal)) (f : String)
    (h : strStartsWith (markerUnder opts UVM_WARNING) f = true) :
    strStartsWith (markerUnder opts UVM_ERROR) f = false := by
  cases hb : optEffectiveCase opts <;>
    simp only [markerUnder, hb, if_true, if_false, Bool.false_eq_true, ite_false, ite_true] at h ⊢ <;>
    exact startsWith_excl' _ _ f (by decide) (by decide) h

theorem err_is_header (opts : List (String × PyVal)) (f : String)
    (h : strStartsWith (markerUnder opts UVM_ERROR) f = true) :
    strStartsWith (markerUnder opts UVM_MESSAGE) f = true := by
  cases hb : optEffectiveCase opts <;>
    simp only [markerUnder, hb, if_true, if_false, Bool.false_eq_true, ite_false, ite_true] at h ⊢ <;>
    exact startsWith_mono _ _ f (by decide) h

theorem warn_is_header (opts : List (String × PyVal)) (f : String)
    (h : strStartsWith (markerUnder opts UVM_WARNING) f = true) :
    strStartsWith (markerUnder opts UVM_MESSAGE) f = true := by
  cases hb : optEffectiveCase opts <;>
    simp only [markerUnder, hb, if_true, if_false, Bool.false_eq_true, ite_false, ite_true] at h ⊢ <;>
    exact startsWith_mono _ _ f (by decide) h

theorem orMatch_acc_true (cfg : Config) (line fline : String) :
    ∀ ts : List String, orMatch cfg line fline ts true = true := by
  intro ts
  induction ts with
  | nil => rfl
  | cons s ts ih =>
    simp only [orMatch, ite_self]
    exact ih

theorem flagStep_fatal (cfg : Config) (dm : List String × Bool) (line fline : String)
    (h : strStartsWith cfg.uvmFatalString fline = true) :
    (flagStep cfg dm line fline).2 = true := by
  cases hx : cfg.searchExclusive <;>
    simp [flagStep, h, hx, ite_self, orMatch_acc_true]

theorem flagStep_err (cfg : Config) (dm : List String × Bool) (line fline : String)
    (h1 : cfg.alwaysShowErrors = true)
    (h2 : strStartsWith cfg.uvmErrorString fline = true) :
    (flagStep cfg dm line fline).2 = true := by
  cases hx : cfg.searchExclusive <;>
    simp [flagStep, h1, h2, hx, ite_self, orMatch_acc_true]

theorem flagStep_warn (cfg : Config) (dm : List String × Bool) (line fline : String)
    (h1 : cfg.alwaysShowWarnings = true)
    (h2 : strStartsWith cfg.uvmWarningString fline = true) :
    (flagStep cfg dm line fline).2 = true := by
  cases hx : cfg.searchExclusive <;>
    simp [flagStep, h1, h2, hx, ite_self, orMatch_acc_true]

theorem flagStep_no_force (cfg : Config) (d : List String) (line fline : String)
    (hfatal : strStartsWith cfg.uvmFatalString fline = false)
    (herr : (cfg.alwaysShowErrors && strStartsWith cfg.uvmErrorString fline) = false)
    (hwarn : (cfg.alwaysShowWarnings && strStartsWith cfg.uvmWarningString fline) = false)
    (hterms : cfg.searchStrings = []) (hcount : cfg.searchStringsCount = 0) :
    (flagStep cfg (d, false) line fline).2 = false := by
  cases h1 : cfg.alwaysShowErrors <;> cases h2 : strStartsWith cfg.uvmErrorString fline <;>
    cases h3 : cfg.alwaysShowWarnings <;> cases h4 : strStartsWith cfg.uvmWarningString fline <;>
    cases hx : cfg.searchExclusive <;>
    simp_all [flagStep, updMatches, orMatch]

theorem processLine_not_boundary (cfg : Config) (st : ScanState) (l : String)
    (hh : strStartsWith cfg.uvmMessageString (flineOf cfg (cleanLine l)) = false)
    (he : strContains cfg.endOfTestString (flineOf cfg (cleanLine l)) = false) :
    processLine cfg st l = .ok { st with
      buffer := st.buffer ++
        [(formatLineNumber (st.lineNumber + 1) cfg.lineNumberWidth, cleanLine l)]
      matchesDict :=
        (flagStep cfg (st.matchesDict, st.matchFlag) (cleanLine l) (flineOf cfg (cleanLine l))).1
      matchFlag :=
        (flagStep cfg (st.matchesDict, st.matchFlag) (cleanLine l) (flineOf cfg (cleanLine l))).2
      lineNumber := st.lineNumber + 1 } := by
  simp [processLine, hh, he]

theorem processLine_header (cfg : Config) (st : ScanState) (l : String)
    (hh : strStartsWith cfg.uvmMessageString (flineOf cfg (cleanLine l)) = true)
    (he : strContains cfg.endOfTestString (flineOf cfg (cleanLine l)) = false) :
    processLine cfg st l = .ok { boundaryUpdate cfg st with
      buffer := [(formatLineNumber (st.lineNumber + 1) cfg.lineNumberWidth, cleanLine l)]
      matchesDict :=
        (flagStep cfg (st.matchesDict, false) (cleanLine l) (flineOf cfg (cleanLine l))).1
      matchFlag :=
        (flagStep cfg (st.matchesDict, false) (cleanLine l) (flineOf cfg (cleanLine l))).2
      lineNumber := st.lineNumber + 1 } := by
  simp [processLine, hh, he, boundaryUpdate]

/-- C8: the force-match rules, per line.  For any line accepted by the
    scan loop (i.e. not an end-of-test line, which has no block): a line
    whose comparison copy starts with the fatal marker always leaves the
    block's match flag set; one starting with the error (resp. warning)
    marker leaves it set when `SHOW_ERRORS` (resp. `SHOW_WARNINGS`) is
    enabled; and with an empty term set and the option disabled, an
    error-marker (resp. warning-marker) line leaves the flag clear, since
    such a line is itself a block header that resets the flag and no
    other rule applies to it. -/
theorem c8_force_rules (re : String → String → Bool) (terms : List String)
    (opts : List (String × PyVal)) (n : Nat) (st : ScanState) (l : String)
    (st' : ScanState)
    (hok : processLine (mkConfig re terms opts n) st l = .ok st') :
    (strStartsWith (markerUnder opts UVM_FATAL) (flineUnder opts l) = true →
      st'.matchFlag = true) ∧
    (optEnabled opts "SHOW_ERRORS" = true →
      strStartsWith (markerUnder opts UVM_ERROR) (flineUnder opts l) = true →
      st'.matchFlag = true) ∧
    (optEnabled opts "SHOW_WARNINGS" = true →
      strStartsWith (markerUnder opts UVM_WARNING) (flineUnder opts l) = true →
      st'.matchFlag = true) ∧
    (terms = [] → optEnabled opts "SHOW_ERRORS" = false →
      strStartsWith (markerUnder opts UVM_ERROR) (flineUnder opts l) = true →
      st'.matchFlag = false) ∧
    (terms = [] → optEnabled opts "SHOW_WARNINGS" = false →
      strStartsWith (markerUnder opts UVM_WARNING) (flineUnder opts l) = true →
      st'.matchFlag = false) := by
  cases hE : strContains (mkConfig re terms opts n).endOfTestString
      (flineOf (mkConfig re terms opts n) (cleanLine l)) with
  | true =>
    rw [processLine_eot _ st l hE] at hok
    exact Except.noConfusion hok
  | false =>
    cases hH : strStartsWith (mkConfig re terms opts n).uvmMessageString
        (flineOf (mkConfig re terms opts n) (cleanLine l)) with
    | false =>
      have hH' : strStartsWith (markerUnder opts UVM_MESSAGE) (flineUnder opts l) = false := hH
      rw [processLine_not_boundary _ st l hH hE] at hok
      injection hok with h
      subst h
      refine ⟨?_, ?_, ?_, ?_, ?_⟩
      · intro hfat
        exact flagStep_fatal _ _ _ _ hfat
      · intro hase herr2
        exact flagStep_err _ _ _ _ hase herr2
      · intro hasw hwrn2
        exact flagStep_warn _ _ _ _ hasw hwrn2
      · intro ht hase herr2
        have hmsg := err_is_header opts _ herr2
        rw [hmsg] at hH'
        simp at hH'
      · intro ht hasw hwrn2
        have hmsg := warn_is_header opts _ hwrn2
        rw [hmsg] at hH'
        simp at hH'
    | true =>
      rw [processLine_header _ st l hH hE] at hok
      injection hok with h
      subst h
      refine ⟨?_, ?_, ?_, ?_, ?_⟩
      · intro hfat
        exact flagStep_fatal _ _ _ _ hfat
      · intro hase herr2
        exact flagStep_err _ _ _ _ hase herr2
      · intro hasw hwrn2
        exact flagStep_warn _ _ _ _ hasw hwrn2
      · intro ht hase herr2
        subst ht
        refine flagStep_no_force _ _ _ _ (err_not_fatal opts _ herr2) ?_ ?_ ?_ rfl
        · show (optEnabled opts "SHOW_ERRORS" &&
            strStartsWith (markerUnder opts UVM_ERROR) (flineUnder opts l)) = false
          rw [hase]
          simp
        · show (optEnabled opts "SHOW_WARNINGS" &&
            strStartsWith (markerUnder opts UVM_WARNING) (flineUnder opts l)) = false
          rw [err_not_warning opts _ herr2]
          simp
        · cases hb : optEffectiveCase opts <;> simp [mkConfig, hb]
      · intro ht hasw hwrn2
        subst ht
        refine flagStep_no_force _ _ _ _ (warn_not_fatal opts _ hwrn2) ?_ ?_ ?_ rfl
        · show (optEnabled opts "SHOW_ERRORS" &&
            strStartsWith (markerUnder opts UVM_ERROR) (flineUnder opts l)) = false
          rw [warn_not_error opts _ hwrn2]
          simp
        · show (optEnabled opts "SHOW_WARNINGS" &&
            strStartsWith (markerUnder opts UVM_WARNING) (flineUnder opts l)) = false
          rw [hasw]
          simp
        · cases hb : optEffectiveCase opts <;> simp [mkConfig, hb]

/-- C8 witness: a fatal line sets the flag on a concrete run. -/
theorem c8_force_rules_witness :
    processLine (mkConfig reNone [] [] 1) initState "# UVM_FATAL boom" =
      .ok ⟨[], [("1", "# UVM_FATAL boom")], [], [], true, false, 0, 1⟩ ∧
    (⟨[], [("1", "# UVM_FATAL boom")], [], [], true, false, 0, 1⟩ : ScanState).matchFlag = true := by
  have h : processLine (mkConfig reNone [] [] 1) initState "# UVM_FATAL boom" =
      .ok ⟨[], [("1", "# UVM_FATAL boom")], [], [], true, false, 0, 1⟩ := by rfl
  exact ⟨h, (c8_force_rules reNone [] [] 1 initState _ _ h).1 (by decide)⟩

theorem data_append (a b : String) : (a ++ b).data = a.data ++ b.data := by
  cases a
  cases b
  rfl

theorem append_newline_inj {a b : String} (h : a ++ "\n" = b ++ "\n") : a = b := by
  cases a with | mk la => ?_
  cases b with | mk lb => ?_
  have h' : la ++ ['\n'] = lb ++ ['\n'] := congrArg String.data h
  exact congrArg String.mk (List.append_cancel_right h')

theorem renderEntry_ne_sep (cfg : Config) (p : String × String) (h : p.2 ≠ SEPERATION) :
    renderEntry cfg p ≠ sepLine := by
  unfold renderEntry sepLine
  cases hsl : cfg.showLineNumbers
  · simp only [Bool.false_eq_true, if_false]
    intro heq
    exact h (append_newline_inj heq)
  · simp only [if_true]
    intro heq
    have hmem : ':' ∈ (p.1 ++ ": " ++ p.2 ++ "\n").data := by
      rw [data_append, data_append, data_append]
      exact List.mem_append_left _ (List.mem_append_left _ (List.mem_append_right _ (by decide)))
    rw [heq] at hmem
    exact absurd hmem (by decide)

theorem chain'_sepR_of_all {rs : List String} (h : ∀ x ∈ rs, x ≠ sepLine) :
    List.Chain' sepR rs := by
  induction rs with
  | nil => exact List.chain'_nil
  | cons a rs ih =>
    rw [List.chain'_cons']
    exact ⟨fun y _ => Or.inl (h a (by simp)),
      ih (fun x hx => h x (by simp [hx]))⟩

theorem goodText_append_sep (t rs : List String) (hrs : rs ≠ [])
    (hne : ∀ x ∈ rs, x ≠ sepLine) (hg : GoodText t) :
    GoodText (t ++ sepLine :: rs) := by
  obtain ⟨hc, hh, hl⟩ := hg
  refine ⟨?_, ?_, ?_⟩
  · rw [List.chain'_append]
    refine ⟨hc, ?_, ?_⟩
    · rw [List.chain'_cons']
      exact ⟨fun y hy => Or.inr (hne y (List.mem_of_mem_head? hy)),
        chain'_sepR_of_all hne⟩
    · intro x hx y hy
      exact Or.inl (hl x hx)
  · intro _
    rw [List.head?_append]
    cases ht : t with
    | nil => rfl
    | cons a t' =>
      rw [← ht, hh (by simp [ht])]
      rfl
  · rw [List.getLast?_append_of_ne_nil t (by simp)]
    have hstep : (sepLine :: rs).getLast? = rs.getLast? := by
      show ([sepLine] ++ rs).getLast? = rs.getLast?
      exact List.getLast?_append_of_ne_nil [sepLine] hrs
    rw [hstep]
    intro x hx
    exact hne x (List.mem_of_mem_getLast? hx)

theorem goodText_append_runs (t rs : List String) (ht : t ≠ [])
    (hne : ∀ x ∈ rs, x ≠ sepLine) (hg : GoodText t) :
    GoodText (t ++ rs) := by
  obtain ⟨hc, hh, hl⟩ := hg
  refine ⟨?_, ?_, ?_⟩
  · rw [List.chain'_append]
    exact ⟨hc, chain'_sepR_of_all hne, fun x hx y hy => Or.inl (hl x hx)⟩
  · intro _
    rw [List.head?_append, hh ht]
    rfl
  · cases hrs : rs with
    | nil =>
      subst hrs
      simpa using hl
    | cons r rs' =>
      rw [← hrs, List.getLast?_append_of_ne_nil t (by simp [hrs])]
      intro x hx
      exact hne x (List.mem_of_mem_getLast? hx)

theorem renderMessages_ne_nil (cfg : Config) (msgs : List (List (String × String)))
    (hm : msgs ≠ []) (hb : ∀ b ∈ msgs, b ≠ []) :
    renderMessages cfg msgs ≠ [] := by
  cases msgs with
  | nil => exact absurd rfl hm
  | cons b rest =>
    unfold renderMessages
    simp only [List.map_cons, List.flatten_cons]
    intro h
    have h1 : renderBlock cfg b = [] := by
      cases hx : renderBlock cfg b with
      | nil => rfl
      | cons y ys => rw [hx] at h; exact absurd h (by simp)
    have hbne := hb b (by simp)
    unfold renderBlock at h1
    exact hbne (List.map_eq_nil_iff.mp h1)

theorem mem_renderMessages {cfg : Config} {x : String} {msgs : List (List (String × String))}
    (h : x ∈ renderMessages cfg msgs) : ∃ b ∈ msgs, ∃ p ∈ b, x = renderEntry cfg p := by
  unfold renderMessages at h
  rcases List.mem_flatten.mp h with ⟨blk, hblk, hx⟩
  rcases List.mem_map.mp hblk with ⟨b, hb, rfl⟩
  unfold renderBlock at hx
  rcases List.mem_map.mp hx with ⟨p, hp, rfl⟩
  exact ⟨b, hb, p, hp, rfl⟩

theorem pySliceFrom_sublist (a : Int) {α : Type} (l : List α) :
    (pySliceFrom a l).Sublist l := by
  unfold pySliceFrom
  split <;> exact List.drop_sublist _ _

theorem pySliceFrom_ne_nil {a : Int} (ha : a < 0) {α : Type} {l : List α} (hl : l ≠ []) :
    pySliceFrom a l ≠ [] := by
  unfold pySliceFrom
  rw [if_neg (by omega)]
  intro h
  have hlen := List.drop_eq_nil_iff.mp h
  have hpos : 0 < l.length := List.length_pos.mpr hl
  omega

theorem boundaryUpdate_no_flush (cfg : Config) (st : ScanState)
    (hm : st.matchFlag = false) (hc : ¬ 0 < st.context) :
    boundaryUpdate cfg st = { st with
      messages := pySliceFrom (-(cfg.searchContext + 1))
        (if 0 < st.buffer.length then st.messages ++ [st.buffer] else st.messages)
      buffer := []
      last := false
      matchFlag := false } := by
  unfold boundaryUpdate
  simp [hm, hc]

theorem boundaryUpdate_flush (cfg : Config) (st : ScanState)
    (h : st.matchFlag = true ∨ 0 < st.context) :
    boundaryUpdate cfg st = { st with
      messages := []
      buffer := []
      text := (if !st.last then st.text ++ [sepLine] else st.text) ++
        renderMessages cfg (pySliceFrom (-(cfg.searchContext + 1))
          (if 0 < st.buffer.length then st.messages ++ [st.buffer] else st.messages))
      last := true
      context := if st.matchFlag = true then cfg.searchContext
        else if 0 < st.context then st.context - 1 else st.context
      matchFlag := false } := by
  unfold boundaryUpdate
  rcases h with h | h
  · simp [h]
  · simp [h]

theorem boundaryUpdate_goodState (cfg : Config) (st : ScanState)
    (hsc : 0 ≤ cfg.searchContext) (hinv : InvState st) :
    (∀ b ∈ (boundaryUpdate cfg st).messages, b ≠ []) ∧
    (∀ b ∈ (boundaryUpdate cfg st).messages, ∀ p ∈ b, p.2 ≠ SEPERATION) ∧
    GoodText (boundaryUpdate cfg st).text ∧
    ((boundaryUpdate cfg st).text = [] → (boundaryUpdate cfg st).last = false) := by
  obtain ⟨h1, h2, h4m, h4b, hgood, h8⟩ := hinv
  have hAblocks : ∀ b ∈ (if 0 < st.buffer.length then st.messages ++ [st.buffer]
      else st.messages), b ≠ [] := by
    by_cases hbuf : 0 < st.buffer.length
    · rw [if_pos hbuf]
      intro b hb
      rcases List.mem_append.mp hb with hb | hb
      · exact h2 b hb
      · simp at hb
        subst hb
        exact List.length_pos.mp hbuf
    · rw [if_neg hbuf]
      exact h2
  have hAsep : ∀ b ∈ (if 0 < st.buffer.length then st.messages ++ [st.buffer]
      else st.messages), ∀ p ∈ b, p.2 ≠ SEPERATION := by
    by_cases hbuf : 0 < st.buffer.length
    · rw [if_pos hbuf]
      intro b hb
      rcases List.mem_append.mp hb with hb | hb
      · exact h4m b hb
      · simp at hb
        subst hb
        exact h4b
    · rw [if_neg hbuf]
      exact h4m
  have hBblocks : ∀ b ∈ pySliceFrom (-(cfg.searchContext + 1))
      (if 0 < st.buffer.length then st.messages ++ [st.buffer] else st.messages), b ≠ [] :=
    fun b hb => hAblocks b ((pySliceFrom_sublist _ _).subset hb)
  have hBsep : ∀ b ∈ pySliceFrom (-(cfg.searchContext + 1))
      (if 0 < st.buffer.length then st.messages ++ [st.buffer] else st.messages),
      ∀ p ∈ b, p.2 ≠ SEPERATION :=
    fun b hb => hAsep b ((pySliceFrom_sublist _ _).subset hb)
  by_cases hfl : st.matchFlag = true ∨ 0 < st.context
  · rw [boundaryUpdate_flush cfg st hfl]
    have hbuf : st.buffer ≠ [] := h1 hfl
    have hbufpos : 0 < st.buffer.length := List.length_pos.mpr hbuf
    have hAne : (if 0 < st.buffer.length then st.messages ++ [st.buffer]
        else st.messages) ≠ [] := by
      rw [if_pos hbufpos]
      simp
    have hBne : pySliceFrom (-(cfg.searchContext + 1))
        (if 0 < st.buffer.length then st.messages ++ [st.buffer] else st.messages) ≠ [] :=
      pySliceFrom_ne_nil (by omega) hAne
    have hrne : renderMessages cfg (pySliceFrom (-(cfg.searchContext + 1))
        (if 0 < st.buffer.length then st.messages ++ [st.buffer] else st.messages)) ≠ [] :=
      renderMessages_ne_nil cfg _ hBne hBblocks
    have hrsep : ∀ x ∈ renderMessages cfg (pySliceFrom (-(cfg.searchContext + 1))
        (if 0 < st.buffer.length then st.messages ++ [st.buffer] else st.messages)),
        x ≠ sepLine := by
      intro x hx
      rcases mem_renderMessages hx with ⟨b, hb, p, hp, rfl⟩
      exact renderEntry_ne_sep cfg p (hBsep b hb p hp)
    refine ⟨by simp, by simp, ?_, ?_⟩
    · show GoodText ((if !st.last then st.text ++ [sepLine] else st.text) ++ _)
      cases hlast : st.last
      · simp only [Bool.not_false, if_true]
        rw [List.append_assoc]
        exact goodText_append_sep st.text _ hrne hrsep hgood
      · simp only [Bool.not_true, Bool.false_eq_true, if_false]
        have ht : st.text ≠ [] := by
          intro h0
          exact absurd (h8 h0) (by simp [hlast])
        exact goodText_append_runs st.text _ ht hrsep hgood
    · intro h0
      exfalso
      cases hx : renderMessages cfg (pySliceFrom (-(cfg.searchContext + 1))
          (if 0 < st.buffer.length then st.messages ++ [st.buffer] else st.messages)) with
      | nil => exact hrne hx
      | cons y ys =>
        rw [hx] at h0
        simp at h0
  · have hm : st.matchFlag = false := by
      cases h : st.matchFlag
      · rfl
      · exact absurd (Or.inl h) hfl
    have hc : ¬ 0 < st.context := fun h => hfl (Or.inr h)
    rw [boundaryUpdate_no_flush cfg st hm hc]
    exact ⟨hBblocks, hBsep, hgood, fun _ => rfl⟩

theorem processLine_inv (cfg : Config) (st : ScanState) (l : String)
    (hsc : 0 ≤ cfg.searchContext) (hline : cleanLine l ≠ SEPERATION)
    (hinv : InvState st) :
    (∀ st', processLine cfg st l = .ok st' → InvState st') ∧
    (∀ t, processLine cfg st l = .error t → GoodText t) := by
  cases hE : strContains cfg.endOfTestString (flineOf cfg (cleanLine l)) with
  | true =>
    rw [processLine_eot cfg st l hE]
    constructor
    · intro st' h
      exact Except.noConfusion h
    · intro t h
      injection h with h
      subst h
      exact (boundaryUpdate_goodState cfg st hsc hinv).2.2.1
  | false =>
    obtain ⟨h1, h2, h4m, h4b, hgood, h8⟩ := hinv
    cases hH : strStartsWith cfg.uvmMessageString (flineOf cfg (cleanLine l)) with
    | false =>
      rw [processLine_not_boundary cfg st l hH hE]
      constructor
      · intro st' h
        injection h with h
        subst h
        refine ⟨fun _ => by simp, h2, h4m, ?_, hgood, h8⟩
        intro p hp
        rcases List.mem_append.mp hp with hp | hp
        · exact h4b p hp
        · simp at hp
          rw [hp]
          exact hline
      · intro t h
        exact Except.noConfusion h
    | true =>
      rw [processLine_header cfg st l hH hE]
      have hbu := boundaryUpdate_goodState cfg st hsc ⟨h1, h2, h4m, h4b, hgood, h8⟩
      constructor
      · intro st' h
        injection h with h
        subst h
        refine ⟨fun _ => by simp, hbu.1, hbu.2.1, ?_, hbu.2.2.1, hbu.2.2.2⟩
        intro p hp
        simp at hp
        rw [hp]
        exact hline
      · intro t h
        exact Except.noConfusion h

theorem postLoop_goodText (cfg : Config) (st : ScanState) (hinv : InvState st) :
    GoodText (postLoop cfg st) := by
  obtain ⟨h1, h2, h4m, h4b, hgood, h8⟩ := hinv
  unfold postLoop
  cases hfl : st.matchFlag || decide (0 < st.context) with
  | false =>
    simp only [hfl, Bool.false_eq_true, if_false]
    exact hgood
  | true =>
    simp only [hfl, if_true]
    have hor : st.matchFlag = true ∨ 0 < st.context := by
      rcases Bool.or_eq_true_iff.mp hfl with h | h
      · exact Or.inl h
      · exact Or.inr (of_decide_eq_true h)
    have hbuf : st.buffer ≠ [] := h1 hor
    have hmsgs1sep : ∀ b ∈ (if 0 < st.messages.length then st.messages.drop 1
        else st.messages), ∀ p ∈ b, p.2 ≠ SEPERATION := by
      by_cases hm0 : 0 < st.messages.length
      · rw [if_pos hm0]
        exact fun b hb => h4m b ((List.drop_sublist 1 st.messages).subset hb)
      · rw [if_neg hm0]
        exact h4m
    have hrsep : ∀ x ∈ renderMessages cfg (pySliceFrom (-(cfg.searchContext + 1))
        (if 0 < st.messages.length then st.messages.drop 1 else st.messages)) ++
        renderBlock cfg st.buffer, x ≠ sepLine := by
      intro x hx
      rcases List.mem_append.mp hx with hx | hx
      · rcases mem_renderMessages hx with ⟨b, hb, p, hp, rfl⟩
        exact renderEntry_ne_sep cfg p
          (hmsgs1sep b ((pySliceFrom_sublist _ _).subset hb) p hp)
      · rcases List.mem_map.mp hx with ⟨p, hp, rfl⟩
        exact renderEntry_ne_sep cfg p (h4b p hp)
    have hrne : renderMessages cfg (pySliceFrom (-(cfg.searchContext + 1))
        (if 0 < st.messages.length then st.messages.drop 1 else st.messages)) ++
        renderBlock cfg st.buffer ≠ [] := by
      intro h0
      have : renderBlock cfg st.buffer = [] := by
        cases hx : renderBlock cfg st.buffer with
        | nil => rfl
        | cons y ys =>
          rw [hx] at h0
          simp at h0
      exact hbuf (List.map_eq_nil_iff.mp this)
    rw [List.append_assoc]
    cases hlast : st.last
    · simp only [Bool.not_false, if_true]
      rw [List.append_assoc]
      exact goodText_append_sep st.text _ hrne hrsep hgood
    · simp only [Bool.not_true, Bool.false_eq_true, if_false]
      have ht : st.text ≠ [] := by
        intro h0
        exact absurd (h8 h0) (by simp [hlast])
      exact goodText_append_runs st.text _ ht hrsep hgood

theorem processLines_goodText (cfg : Config) (lines : List String) :
    ∀ st : ScanState, 0 ≤ cfg.searchContext →
    (∀ l ∈ lines, cleanLine l ≠ SEPERATION) → InvState st →
    GoodText (processLines cfg st lines) := by
  induction lines with
  | nil =>
    intro st hsc hl hinv
    exact postLoop_goodText cfg st hinv
  | cons l rest ih =>
    intro st hsc hl hinv
    simp only [processLines]
    cases hp : processLine cfg st l with
    | error t => exact (processLine_inv cfg st l hsc (hl l (by simp)) hinv).2 t hp
    | ok st' =>
      exact ih st' hsc (fun x hx => hl x (by simp [hx]))
        ((processLine_inv cfg st l hsc (hl l (by simp)) hinv).1 st' hp)

/-- C2 (amended): for every input with a non-negative decoded
    `SEARCH_CONTEXT` in which no cleaned line is the bare `"..."` string,
    the `"..."` separator is never emitted twice in a row, the very first
    output line (when there is any output) is the separator — i.e. a
    separator also precedes the very first printed run — and the
    separator is never the final output line, so each separator is
    immediately followed by a printed run. -/
theorem c2_separator_placement (re : String → String → Bool)
    (lines terms : List String) (opts : List (String × PyVal))
    (hctx : 0 ≤ optContext opts)
    (hl : ∀ l ∈ lines, cleanLine l ≠ SEPERATION) :
    List.Chain' (fun a b => a ≠ sepLine ∨ b ≠ sepLine)
      (SearchFile.search re lines terms opts) ∧
    (SearchFile.search re lines terms opts ≠ [] →
      (SearchFile.search re lines terms opts).head? = some sepLine) ∧
    (∀ x ∈ (SearchFile.search re lines terms opts).getLast?, x ≠ sepLine) := by
  have hsc : 0 ≤ (mkConfig re terms opts lines.length).searchContext := hctx
  have hinv : InvState initState := by
    refine ⟨?_, ?_, ?_, ?_, ⟨?_, ?_, ?_⟩, ?_⟩ <;> simp [initState, GoodText]
  have hg := processLines_goodText (mkConfig re terms opts lines.length) lines
    initState hsc hl hinv
  exact ⟨hg.1, hg.2.1, hg.2.2⟩

/-- C2 witness: a concrete run satisfying the separator-placement
    guarantees. -/
theorem c2_separator_placement_witness :
    List.Chain' (fun a b => a ≠ sepLine ∨ b ≠ sepLine)
      (SearchFile.search reNone ["# UVM_FATAL boom", "detail"] [] []) ∧
    (SearchFile.search reNone ["# UVM_FATAL boom", "detail"] [] [] ≠ [] →
      (SearchFile.search reNone ["# UVM_FATAL boom", "detail"] [] []).head? =
        some sepLine) ∧
    (∀ x ∈ (SearchFile.search reNone ["# UVM_FATAL boom", "detail"] [] []).getLast?,
      x ≠ sepLine) :=
  c2_separator_placement reNone ["# UVM_FATAL boom", "detail"] [] []
    (by decide) (by decide)

theorem numberFrom_length (w : Nat) : ∀ (n : Nat) (ls : List String),
    (numberFrom w n ls).length = ls.length := by
  intro n ls
  induction ls generalizing n with
  | nil => rfl
  | cons l rest ih => simp [numberFrom, ih]

theorem blocksLines_cons (b : String × List String) (rest : List (String × List String)) :
    blocksLines (b :: rest) = blockLines b ++ blocksLines rest := by
  simp [blocksLines]

theorem numberBlocks_append (w : Nat) :
    ∀ (bs1 bs2 : List (String × List String)) (n : Nat),
    numberBlocks w n (bs1 ++ bs2) =
      numberBlocks w n bs1 ++ numberBlocks w (n + (blocksLines bs1).length) bs2 := by
  intro bs1
  induction bs1 with
  | nil =>
    intro bs2 n
    simp [numberBlocks, blocksLines]
  | cons b rest ih =>
    intro bs2 n
    rw [List.cons_append]
    simp only [numberBlocks]
    rw [ih bs2 (n + (blockLines b).length), blocksLines_cons, List.length_append,
      List.cons_append, Nat.add_assoc]

theorem processLines_append (cfg : Config) (l1 : List String) :
    ∀ (st : ScanState) (l2 : List String) (st1 : ScanState),
    runList cfg st l1 = .ok st1 →
    processLines cfg st (l1 ++ l2) = processLines cfg st1 l2 := by
  induction l1 with
  | nil =>
    intro st l2 st1 h
    injection h with h
    subst h
    rfl
  | cons l rest ih =>
    intro st l2 st1 h
    simp only [List.cons_append, processLines]
    simp only [runList] at h
    cases hp : processLine cfg st l with
    | error t =>
      rw [hp] at h
      exact Except.noConfusion h
    | ok st' =>
      rw [hp] at h
      exact ih st' l2 st1 h

theorem runList_append (cfg : Config) (l1 : List String) :
    ∀ (st : ScanState) (l2 : List String) (st1 : ScanState),
    runList cfg st l1 = .ok st1 →
    runList cfg st (l1 ++ l2) = runList cfg st1 l2 := by
  induction l1 with
  | nil =>
    intro st l2 st1 h
    injection h with h
    subst h
    rfl
  | cons l rest ih =>
    intro st l2 st1 h
    simp only [List.cons_append, runList]
    simp only [runList] at h
    cases hp : processLine cfg st l with
    | error t =>
      rw [hp] at h
      exact Except.noConfusion h
    | ok st' =>
      rw [hp] at h
      exact ih st' l2 st1 h

theorem processLine_text_extends (cfg : Config) (st : ScanState) (l : String) :
    (∀ st', processLine cfg st l = .ok st' → ∃ c, st'.text = st.text ++ c) ∧
    (∀ t, processLine cfg st l = .error t → ∃ c, t = st.text ++ c) := by
  have hbu : ∃ c, (boundaryUpdate cfg st).text = st.text ++ c := by
    by_cases hfl : st.matchFlag = true ∨ 0 < st.context
    · rw [boundaryUpdate_flush cfg st hfl]
      cases hlast : st.last
      · refine ⟨sepLine :: renderMessages cfg (pySliceFrom (-(cfg.searchContext + 1))
          (if 0 < st.buffer.length then st.messages ++ [st.buffer] else st.messages)), ?_⟩
        simp [List.append_assoc]
      · refine ⟨renderMessages cfg (pySliceFrom (-(cfg.searchContext + 1))
          (if 0 < st.buffer.length then st.messages ++ [st.buffer] else st.messages)), ?_⟩
        simp
    · rw [boundaryUpdate_no_flush cfg st (by
        cases h : st.matchFlag
        · rfl
        · exact absurd (Or.inl h) hfl) (fun h => hfl (Or.inr h))]
      exact ⟨[], by simp⟩
  cases hE : strContains cfg.endOfTestString (flineOf cfg (cleanLine l)) with
  | true =>
    rw [processLine_eot cfg st l hE]
    constructor
    · intro st' h
      exact Except.noConfusion h
    · intro t h
      injection h with h
      subst h
      exact hbu
  | false =>
    cases hH : strStartsWith cfg.uvmMessageString (flineOf cfg (cleanLine l)) with
    | true =>
      rw [processLine_header cfg st l hH hE]
      constructor
      · intro st' h
        injection h with h
        subst h
        exact hbu
      · intro t h
        exact Except.noConfusion h
    | false =>
      rw [processLine_not_boundary cfg st l hH hE]
      constructor
      · intro st' h
        injection h with h
        subst h
        exact ⟨[], by simp⟩
      · intro t h
        exact Except.noConfusion h

theorem processLines_text_mono (cfg : Config) (ls : List String) :
    ∀ st : ScanState, ∃ r, processLines cfg st ls = st.text ++ r := by
  induction ls with
  | nil =>
    intro st
    simp only [processLines]
    unfold postLoop
    cases hc : st.matchFlag || decide (0 < st.context) with
    | false =>
      simp only [hc, Bool.false_eq_true, if_false]
      exact ⟨[], by simp⟩
    | true =>
      simp only [hc, if_true]
      cases hlast : st.last
      · simp only [Bool.not_false, if_true]
        exact ⟨_, by rw [List.append_assoc, List.append_assoc]⟩
      · simp only [Bool.not_true, Bool.false_eq_true, if_false]
        exact ⟨_, by rw [List.append_assoc]⟩
  | cons l rest ih =>
    intro st
    simp only [processLines]
    cases hp : processLine cfg st l with
    | error t =>
      obtain ⟨c, hc⟩ := (processLine_text_extends cfg st l).2 t hp
      exact ⟨c, hc⟩
    | ok st' =>
      obtain ⟨c, hc⟩ := (processLine_text_extends cfg st l).1 st' hp
      obtain ⟨r, hr⟩ := ih st'
      refine ⟨c ++ r, ?_⟩
      show processLines cfg st' rest = st.text ++ (c ++ r)
      rw [hr, hc, List.append_assoc]

theorem pySliceFrom_neg_eq_winN (N : Nat) {α : Type} (l : List α) :
    pySliceFrom (-((N : Int) + 1)) l = winN (N + 1) l := by
  unfold pySliceFrom winN
  rw [if_neg (by omega)]
  congr 1
  omega

theorem winN_winN (K : Nat) {α : Type} (l : List α) : winN K (winN K l) = winN K l := by
  unfold winN
  rw [List.length_drop, show l.length - (l.length - K) - K = 0 from by omega, List.drop_zero]

theorem winN_append_single (K : Nat) (hK : 0 < K) {α : Type} (A : List α) (b : α) :
    winN K (winN K A ++ [b]) = winN K (A ++ [b]) := by
  unfold winN
  by_cases h : K ≤ A.length
  · have hlen : (A.drop (A.length - K)).length = K := by
      rw [List.length_drop]
      omega
    rw [List.length_append, hlen, List.length_append,
      show K + [b].length - K = 1 from by simp,
      show A.length + [b].length - K = A.length + 1 - K from by simp,
      List.drop_append_of_le_length (by omega),
      List.drop_append_of_le_length (by omega),
      List.drop_drop,
      show A.length - K + 1 = A.length + 1 - K from by omega]
  · rw [show A.length - K = 0 from by omega, List.drop_zero]

theorem runList_no_boundary (cfg : Config) :
    ∀ (ls : List String) (st : ScanState),
    (∀ l ∈ ls, strStartsWith cfg.uvmMessageString (flineOf cfg (cleanLine l)) = false ∧
      strContains cfg.endOfTestString (flineOf cfg (cleanLine l)) = false) →
    runList cfg st ls = .ok { st with
      buffer := st.buffer ++ numberFrom cfg.lineNumberWidth st.lineNumber ls
      matchesDict := (flagRun cfg (st.matchesDict, st.matchFlag) ls).1
      matchFlag := (flagRun cfg (st.matchesDict, st.matchFlag) ls).2
      lineNumber := st.lineNumber + ls.length } := by
  intro ls
  induction ls with
  | nil =>
    intro st h
    obtain ⟨ms, bf, tx, md, mf, la, cx, ln⟩ := st
    simp [runList, numberFrom, flagRun]
  | cons l rest ih =>
    intro st h
    simp only [runList]
    rw [processLine_not_boundary cfg st l (h l (by simp)).1 (h l (by simp)).2]
    show runList cfg _ rest = _
    rw [ih _ (fun x hx => h x (by simp [hx]))]
    obtain ⟨ms, bf, tx, md, mf, la, cx, ln⟩ := st
    simp only [numberFrom, flagRun]
    simp [List.append_assoc]
    omega

theorem closeIf_pos (closed : List (List (String × String))) (buf : List (String × String))
    (h : 0 < buf.length) : closeIf closed buf = closed ++ [buf] := by
  unfold closeIf
  rw [if_pos h]

theorem preClosed_spec (w : Nat) :
    ∀ (bs : List (String × List String)) (closed : List (List (String × String)))
      (buf : List (String × String)) (n : Nat),
    closeIf (preClosed w closed buf n bs).1 (preClosed w closed buf n bs).2.1 =
      closeIf closed buf ++ numberBlocks w n bs ∧
    (preClosed w closed buf n bs).2.2 = n + (blocksLines bs).length := by
  intro bs
  induction bs with
  | nil =>
    intro closed buf n
    simp [preClosed, numberBlocks, blocksLines]
  | cons b rest ih =>
    intro closed buf n
    simp only [preClosed, numberBlocks]
    obtain ⟨ih1, ih2⟩ :=
      ih (closeIf closed buf) (numberFrom w n (blockLines b)) (n + (blockLines b).length)
    constructor
    · rw [ih1, closeIf_pos (closeIf closed buf) (numberFrom w n (blockLines b))
        (by rw [numberFrom_length]; simp [blockLines]), List.append_assoc]
      rfl
    · rw [ih2, blocksLines_cons, List.length_append]
      omega

theorem runBlock_step (cfg : Config) (N : Nat) (hNsc : cfg.searchContext = (N : Int))
    (b : String × List String)
    (hbh : strStartsWith cfg.uvmMessageString (flineOf cfg (cleanLine b.1)) = true)
    (hbe : strContains cfg.endOfTestString (flineOf cfg (cleanLine b.1)) = false)
    (hbt : ∀ l ∈ b.2, strStartsWith cfg.uvmMessageString (flineOf cfg (cleanLine l)) = false ∧
      strContains cfg.endOfTestString (flineOf cfg (cleanLine l)) = false)
    (st : ScanState) (closedAbs : List (List (String × String)))
    (hm : st.matchFlag = false) (hc : st.context = 0)
    (hmsg : st.messages = winN (N + 1) closedAbs) :
    runList cfg st (blockLines b) = .ok
      { st with
        messages := winN (N + 1) (closeIf closedAbs st.buffer)
        buffer := numberFrom cfg.lineNumberWidth st.lineNumber (blockLines b)
        matchesDict := (flagRun cfg (st.matchesDict, false) (blockLines b)).1
        matchFlag := (flagRun cfg (st.matchesDict, false) (blockLines b)).2
        last := false
        lineNumber := st.lineNumber + (blockLines b).length } := by
  have hM : pySliceFrom (-(cfg.searchContext + 1))
      (if 0 < st.buffer.length then st.messages ++ [st.buffer] else st.messages) =
      winN (N + 1) (closeIf closedAbs st.buffer) := by
    rw [hNsc, pySliceFrom_neg_eq_winN, hmsg]
    unfold closeIf
    by_cases hb0 : 0 < st.buffer.length
    · rw [if_pos hb0, if_pos hb0, winN_append_single (N + 1) (by omega)]
    · rw [if_neg hb0, if_neg hb0, winN_winN]
  show runList cfg st (b.1 :: b.2) = _
  simp only [runList]
  rw [processLine_header cfg st b.1 hbh hbe,
    boundaryUpdate_no_flush cfg st hm (by rw [hc]; simp)]
  show runList cfg _ b.2 = _
  rw [runList_no_boundary cfg b.2 _ hbt]
  obtain ⟨ms, bf, tx, md, mf, la, cx, ln⟩ := st
  simp only at hM
  simp only [numberFrom, flagRun]
  simp [List.append_assoc, blockLines]
  constructor
  · rw [show (-1 + -cfg.searchContext : Int) = -(cfg.searchContext + 1) from by ring]
    exact hM
  · omega

theorem runBlocks_pre (cfg : Config) (N : Nat) (hNsc : cfg.searchContext = (N : Int)) :
    ∀ (bs : List (String × List String)) (st : ScanState)
      (closedAbs : List (List (String × String))),
    (∀ b ∈ bs, strStartsWith cfg.uvmMessageString (flineOf cfg (cleanLine b.1)) = true ∧
      strContains cfg.endOfTestString (flineOf cfg (cleanLine b.1)) = false ∧
      ∀ l ∈ b.2, strStartsWith cfg.uvmMessageString (flineOf cfg (cleanLine l)) = false ∧
        strContains cfg.endOfTestString (flineOf cfg (cleanLine l)) = false) →
    (∀ fl ∈ (blockFlags cfg st.matchesDict bs).2, fl = false) →
    st.matchFlag = false → st.context = 0 → st.last = false →
    st.messages = winN (N + 1) closedAbs →
    runList cfg st (blocksLines bs) = .ok
      { st with
        messages := winN (N + 1)
          (preClosed cfg.lineNumberWidth closedAbs st.buffer st.lineNumber bs).1
        buffer := (preClosed cfg.lineNumberWidth closedAbs st.buffer st.lineNumber bs).2.1
        matchesDict := (blockFlags cfg st.matchesDict bs).1
        matchFlag := false
        last := false
        lineNumber := (preClosed cfg.lineNumberWidth closedAbs st.buffer st.lineNumber bs).2.2 } := by
  intro bs
  induction bs with
  | nil =>
    intro st closedAbs hshape hflags hm hc hlast hmsg
    obtain ⟨ms, bf, tx, md, mf, la, cx, ln⟩ := st
    simp only at hm hc hlast hmsg
    subst hm
    subst hlast
    simp [runList, preClosed, blockFlags, blocksLines, hmsg]
  | cons b rest ih =>
    intro st closedAbs hshape hflags hm hc hlast hmsg
    rw [blocksLines_cons]
    obtain ⟨hbh, hbe, hbt⟩ := hshape b (by simp)
    have hstep := runBlock_step cfg N hNsc b hbh hbe hbt st closedAbs hm hc hmsg
    rw [runList_append cfg (blockLines b) st (blocksLines rest) _ hstep]
    have hflag1 : (flagRun cfg (st.matchesDict, false) (blockLines b)).2 = false := by
      refine hflags _ ?_
      simp only [blockFlags]
      exact List.mem_cons_self _ _
    have hrec := ih
      { st with
        messages := winN (N + 1) (closeIf closedAbs st.buffer)
        buffer := numberFrom cfg.lineNumberWidth st.lineNumber (blockLines b)
        matchesDict := (flagRun cfg (st.matchesDict, false) (blockLines b)).1
        matchFlag := (flagRun cfg (st.matchesDict, false) (blockLines b)).2
        last := false
        lineNumber := st.lineNumber + (blockLines b).length }
      (closeIf closedAbs st.buffer)
      (fun x hx => hshape x (by simp [hx]))
      (fun fl hfl => hflags fl (by
        simp only [blockFlags]
        exact List.mem_cons_of_mem _ hfl))
      hflag1 hc rfl rfl
    rw [hflag1] at hrec
    rw [hflag1, hrec]
    rfl

/-- History trimming at a block close: any line the loop accepts either
    leaves the message history unchanged (no boundary) or replaces it by
    a suffix of the closed history of length at most
    `search_context + 1` (dropping oldest first), the flush case leaving
    it empty. -/
theorem processLine_history_trim (cfg : Config) (st st' : ScanState) (l : String)
    (hsc : 0 ≤ cfg.searchContext)
    (hok : processLine cfg st l = .ok st') :
    st'.messages = st.messages ∨
      (st'.messages <:+ (if 0 < st.buffer.length then st.messages ++ [st.buffer]
        else st.messages) ∧
       st'.messages.length ≤ cfg.searchContext.toNat + 1) := by
  have hneg : ¬ (0 : Int) ≤ -(cfg.searchContext + 1) := by omega
  cases hE : strContains cfg.endOfTestString (flineOf cfg (cleanLine l)) with
  | true =>
    rw [processLine_eot cfg st l hE] at hok
    exact Except.noConfusion hok
  | false =>
    cases hH : strStartsWith cfg.uvmMessageString (flineOf cfg (cleanLine l)) with
    | false =>
      rw [processLine_not_boundary cfg st l hH hE] at hok
      injection hok with hok
      subst hok
      exact Or.inl rfl
    | true =>
      rw [processLine_header cfg st l hH hE] at hok
      injection hok with hok
      subst hok
      right
      by_cases hfl : st.matchFlag = true ∨ 0 < st.context
      · constructor
        · show (boundaryUpdate cfg st).messages <:+ _
          rw [boundaryUpdate_flush cfg st hfl]
          show ([] : List (List (String × String))) <:+ _
          exact List.nil_suffix
        · show (boundaryUpdate cfg st).messages.length ≤ _
          rw [boundaryUpdate_flush cfg st hfl]
          show ([] : List (List (String × String))).length ≤ _
          simp
      · have hm : st.matchFlag = false := by
          cases hmf : st.matchFlag with
          | false => rfl
          | true => exact absurd (Or.inl hmf) hfl
        have hc : ¬ 0 < st.context := fun h => hfl (Or.inr h)
        constructor
        · show (boundaryUpdate cfg st).messages <:+ _
          rw [boundaryUpdate_no_flush cfg st hm hc]
          show pySliceFrom (-(cfg.searchContext + 1))
            (if 0 < st.buffer.length then st.messages ++ [st.buffer]
              else st.messages) <:+ _
          unfold pySliceFrom
          rw [if_neg hneg]
          exact List.drop_suffix _ _
        · show (boundaryUpdate cfg st).messages.length ≤ _
          rw [boundaryUpdate_no_flush cfg st hm hc]
          show (pySliceFrom (-(cfg.searchContext + 1))
            (if 0 < st.buffer.length then st.messages ++ [st.buffer]
              else st.messages)).length ≤ _
          unfold pySliceFrom
          rw [if_neg hneg, List.length_drop]
          omega

/-- Reaching a block boundary (header or end-of-test line) from a state
    whose block matched, with no prior output and a non-empty buffer,
    emits the separator followed by the trimmed history including the
    just-closed buffer, and then whatever the rest of the scan adds. -/
theorem flush_at_boundary (cfg : Config) (st : ScanState) (bNext : String)
    (suffix : List String)
    (hm : st.matchFlag = true) (hla : st.last = false) (ht : st.text = [])
    (hb : 0 < st.buffer.length)
    (hnext : strStartsWith cfg.uvmMessageString (flineOf cfg (cleanLine bNext)) = true ∨
      strContains cfg.endOfTestString (flineOf cfg (cleanLine bNext)) = true) :
    ∃ rest : List String,
      processLines cfg st (bNext :: suffix) =
        sepLine :: (renderMessages cfg (pySliceFrom (-(cfg.searchContext + 1))
          (st.messages ++ [st.buffer])) ++ rest) := by
  have htext : (boundaryUpdate cfg st).text =
      sepLine :: renderMessages cfg (pySliceFrom (-(cfg.searchContext + 1))
        (st.messages ++ [st.buffer])) := by
    rw [boundaryUpdate_flush cfg st (Or.inl hm)]
    show (if !st.last then st.text ++ [sepLine] else st.text) ++
        renderMessages cfg (pySliceFrom (-(cfg.searchContext + 1))
          (if 0 < st.buffer.length then st.messages ++ [st.buffer]
            else st.messages)) = _
    rw [hla, ht, if_pos hb]
    simp
  cases hE : strContains cfg.endOfTestString (flineOf cfg (cleanLine bNext)) with
  | true =>
    refine ⟨[], ?_⟩
    simp only [processLines, processLine_eot cfg st bNext hE]
    rw [htext, List.append_nil]
  | false =>
    have hh : strStartsWith cfg.uvmMessageString (flineOf cfg (cleanLine bNext)) = true := by
      rcases hnext with h | h
      · exact h
      · rw [h] at hE
        exact Bool.noConfusion hE
    have hstep := processLine_header cfg st bNext hh hE
    obtain ⟨r, hr⟩ := processLines_text_mono cfg suffix
      { boundaryUpdate cfg st with
        buffer := [(formatLineNumber (st.lineNumber + 1) cfg.lineNumberWidth, cleanLine bNext)]
        matchesDict := (flagStep cfg (st.matchesDict, false) (cleanLine bNext)
          (flineOf cfg (cleanLine bNext))).1
        matchFlag := (flagStep cfg (st.matchesDict, false) (cleanLine bNext)
          (flineOf cfg (cleanLine bNext))).2
        lineNumber := st.lineNumber + 1 }
    refine ⟨r, ?_⟩
    simp only [processLines, hstep]
    rw [hr]
    show (boundaryUpdate cfg st).text ++ r = _
    rw [htext, List.cons_append]

/-- Window shape of a single-match scan: a prefix of plain lines, a run
    of non-matching blocks, one matching block, then a boundary line.
    The output opens with the separator followed by the last
    `context_count + 1` closed blocks up to and including the matching
    one, rendered in source order. -/
theorem search_first_match_window (re : String → String → Bool)
    (terms : List String) (opts : List (String × PyVal)) (N : Nat)
    (P : List String) (blocksPre : List (String × List String))
    (bk : String × List String) (bNext : String) (suffix : List String)
    (lines : List String)
    (hlines : lines = P ++ (blocksLines blocksPre ++ (blockLines bk ++ bNext :: suffix)))
    (hN : optContext opts = (N : Int))
    (hP : ∀ l ∈ P, isHeaderLineOpts opts l = false ∧ isEotLineOpts opts l = false)
    (hpre : ∀ b ∈ blocksPre, isHeaderLineOpts opts b.1 = true ∧
      isEotLineOpts opts b.1 = false ∧
      ∀ l ∈ b.2, isHeaderLineOpts opts l = false ∧ isEotLineOpts opts l = false)
    (hbk : isHeaderLineOpts opts bk.1 = true ∧ isEotLineOpts opts bk.1 = false ∧
      ∀ l ∈ bk.2, isHeaderLineOpts opts l = false ∧ isEotLineOpts opts l = false)
    (hnext : isHeaderLineOpts opts bNext = true ∨ isEotLineOpts opts bNext = true)
    (hPflag : (flagRun (mkConfig re terms opts lines.length) ([], false) P).2 = false)
    (hpreflags : ∀ fl ∈ (blockFlags (mkConfig re terms opts lines.length)
      (flagRun (mkConfig re terms opts lines.length) ([], false) P).1 blocksPre).2,
      fl = false)
    (hkflag : (flagRun (mkConfig re terms opts lines.length)
      ((blockFlags (mkConfig re terms opts lines.length)
        (flagRun (mkConfig re terms opts lines.length) ([], false) P).1 blocksPre).1, false)
      (blockLines bk)).2 = true) :
    ∃ rest : List String,
      SearchFile.search re lines terms opts =
        sepLine :: (renderMessages (mkConfig re terms opts lines.length)
          (pySliceFrom (-((N : Int) + 1))
            (closeIf [] (numberFrom (mkConfig re terms opts lines.length).lineNumberWidth 0 P) ++
              numberBlocks (mkConfig re terms opts lines.length).lineNumberWidth P.length
                (blocksPre ++ [bk]))) ++ rest) := by
  obtain ⟨hbkh, hbke, hbkt⟩ := hbk
  have hNcfg : (mkConfig re terms opts lines.length).searchContext = (N : Int) := hN
  have hP' : ∀ l ∈ P,
      strStartsWith (mkConfig re terms opts lines.length).uvmMessageString
        (flineOf (mkConfig re terms opts lines.length) (cleanLine l)) = false ∧
      strContains (mkConfig re terms opts lines.length).endOfTestString
        (flineOf (mkConfig re terms opts lines.length) (cleanLine l)) = false := hP
  have hpre' : ∀ b ∈ blocksPre,
      strStartsWith (mkConfig re terms opts lines.length).uvmMessageString
        (flineOf (mkConfig re terms opts lines.length) (cleanLine b.1)) = true ∧
      strContains (mkConfig re terms opts lines.length).endOfTestString
        (flineOf (mkConfig re terms opts lines.length) (cleanLine b.1)) = false ∧
      ∀ l ∈ b.2,
        strStartsWith (mkConfig re terms opts lines.length).uvmMessageString
          (flineOf (mkConfig re terms opts lines.length) (cleanLine l)) = false ∧
        strContains (mkConfig re terms opts lines.length).endOfTestString
          (flineOf (mkConfig re terms opts lines.length) (cleanLine l)) = false := hpre
  have hbkh' : strStartsWith (mkConfig re terms opts lines.length).uvmMessageString
      (flineOf (mkConfig re terms opts lines.length) (cleanLine bk.1)) = true := hbkh
  have hbke' : strContains (mkConfig re terms opts lines.length).endOfTestString
      (flineOf (mkConfig re terms opts lines.length) (cleanLine bk.1)) = false := hbke
  have hbkt' : ∀ l ∈ bk.2,
      strStartsWith (mkConfig re terms opts lines.length).uvmMessageString
        (flineOf (mkConfig re terms opts lines.length) (cleanLine l)) = false ∧
      strContains (mkConfig re terms opts lines.length).endOfTestString
        (flineOf (mkConfig re terms opts lines.length) (cleanLine l)) = false := hbkt
  have hnext' : strStartsWith (mkConfig re terms opts lines.length).uvmMessageString
      (flineOf (mkConfig re terms opts lines.length) (cleanLine bNext)) = true ∨
      strContains (mkConfig re terms opts lines.length).endOfTestString
        (flineOf (mkConfig re terms opts lines.length) (cleanLine bNext)) = true := hnext
  set cfg := mkConfig re terms opts lines.length with hcfg
  have h0 : runList cfg initState P = .ok (stAfterP cfg P) :=
    runList_no_boundary cfg P initState hP'
  have hPflag' : (stAfterP cfg P).matchFlag = false := hPflag
  have h1 : runList cfg (stAfterP cfg P) (blocksLines blocksPre) =
      .ok (stAfterBlocks cfg N [] (stAfterP cfg P) blocksPre) :=
    runBlocks_pre cfg N hNcfg blocksPre (stAfterP cfg P) [] hpre' hpreflags hPflag'
      rfl rfl (by simp [stAfterP, initState, winN])
  have h2 : runList cfg (stAfterBlocks cfg N [] (stAfterP cfg P) blocksPre) (blockLines bk) =
      .ok (c4State cfg N P blocksPre bk) :=
    runBlock_step cfg N hNcfg bk hbkh' hbke' hbkt'
      (stAfterBlocks cfg N [] (stAfterP cfg P) blocksPre)
      (preClosed cfg.lineNumberWidth [] (numberFrom cfg.lineNumberWidth 0 P)
        (0 + P.length) blocksPre).1
      rfl rfl rfl
  have hrun : processLines cfg initState lines =
      processLines cfg (c4State cfg N P blocksPre bk) (bNext :: suffix) := by
    rw [hlines]
    exact (processLines_append cfg P initState _ _ h0).trans
      ((processLines_append cfg (blocksLines blocksPre) _ _ _ h1).trans
        (processLines_append cfg (blockLines bk) _ _ _ h2))
  have hRm : (c4State cfg N P blocksPre bk).matchFlag = true := hkflag
  have hbufpos : 0 < (c4State cfg N P blocksPre bk).buffer.length := by
    show 0 < (numberFrom cfg.lineNumberWidth
      (preClosed cfg.lineNumberWidth [] (numberFrom cfg.lineNumberWidth 0 P)
        (0 + P.length) blocksPre).2.2 (blockLines bk)).length
    rw [numberFrom_length]
    simp [blockLines]
  obtain ⟨rest, hflush⟩ := flush_at_boundary cfg (c4State cfg N P blocksPre bk)
    bNext suffix hRm rfl rfl hbufpos hnext'
  refine ⟨rest, ?_⟩
  have hwineq : pySliceFrom (-(cfg.searchContext + 1))
      ((c4State cfg N P blocksPre bk).messages ++ [(c4State cfg N P blocksPre bk).buffer]) =
      pySliceFrom (-((N : Int) + 1))
        (closeIf [] (numberFrom cfg.lineNumberWidth 0 P) ++
          numberBlocks cfg.lineNumberWidth P.length (blocksPre ++ [bk])) := by
    rw [hNcfg, pySliceFrom_neg_eq_winN, pySliceFrom_neg_eq_winN]
    show winN (N + 1)
        (winN (N + 1)
          (closeIf
            (preClosed cfg.lineNumberWidth [] (numberFrom cfg.lineNumberWidth 0 P)
              (0 + P.length) blocksPre).1
            (preClosed cfg.lineNumberWidth [] (numberFrom cfg.lineNumberWidth 0 P)
              (0 + P.length) blocksPre).2.1) ++
          [numberFrom cfg.lineNumberWidth
            (preClosed cfg.lineNumberWidth [] (numberFrom cfg.lineNumberWidth 0 P)
              (0 + P.length) blocksPre).2.2 (blockLines bk)]) =
      winN (N + 1)
        (closeIf [] (numberFrom cfg.lineNumberWidth 0 P) ++
          numberBlocks cfg.lineNumberWidth P.length (blocksPre ++ [bk]))
    rw [winN_append_single (N + 1) (Nat.succ_pos N)]
    obtain ⟨hps1, hps2⟩ := preClosed_spec cfg.lineNumberWidth blocksPre []
      (numberFrom cfg.lineNumberWidth 0 P) (0 + P.length)
    rw [hps1, hps2, numberBlocks_append cfg.lineNumberWidth blocksPre [bk] P.length]
    simp [numberBlocks, Nat.zero_add, List.append_assoc]
  unfold SearchFile.search
  rw [← hcfg, hrun, hflush, hwineq]

/-- C4 (amended): with decoded context count `N` and a single matching
    block that is closed by a later boundary line inside the loop, the
    output opens with the separator followed by the last `N + 1` closed
    blocks up to and including the matching block — the window clipped at
    the start of the stream — rendered as one contiguous run in source
    order; and on every accepted line the history is either untouched or
    trimmed to a suffix (dropping oldest first) of at most
    `context_count + 1` entries of the closed history.  The spec's
    unrestricted form is false: a matching block flushed only by the
    post-loop path loses one deserved context block (see the
    counterexample). -/
theorem c4_context_window_and_trim (re : String → String → Bool)
    (terms : List String) (opts : List (String × PyVal)) (N : Nat)
    (P : List String) (blocksPre : List (String × List String))
    (bk : String × List String) (bNext : String) (suffix : List String)
    (lines : List String)
    (hlines : lines = P ++ (blocksLines blocksPre ++ (blockLines bk ++ bNext :: suffix)))
    (hN : optContext opts = (N : Int))
    (hP : ∀ l ∈ P, isHeaderLineOpts opts l = false ∧ isEotLineOpts opts l = false)
    (hpre : ∀ b ∈ blocksPre, isHeaderLineOpts opts b.1 = true ∧
      isEotLineOpts opts b.1 = false ∧
      ∀ l ∈ b.2, isHeaderLineOpts opts l = false ∧ isEotLineOpts opts l = false)
    (hbk : isHeaderLineOpts opts bk.1 = true ∧ isEotLineOpts opts bk.1 = false ∧
      ∀ l ∈ bk.2, isHeaderLineOpts opts l = false ∧ isEotLineOpts opts l = false)
    (hnext : isHeaderLineOpts opts bNext = true ∨ isEotLineOpts opts bNext = true)
    (hPflag : (flagRun (mkConfig re terms opts lines.length) ([], false) P).2 = false)
    (hpreflags : ∀ fl ∈ (blockFlags (mkConfig re terms opts lines.length)
      (flagRun (mkConfig re terms opts lines.length) ([], false) P).1 blocksPre).2,
      fl = false)
    (hkflag : (flagRun (mkConfig re terms opts lines.length)
      ((blockFlags (mkConfig re terms opts lines.length)
        (flagRun (mkConfig re terms opts lines.length) ([], false) P).1 blocksPre).1, false)
      (blockLines bk)).2 = true) :
    (∃ rest : List String,
      SearchFile.search re lines terms opts =
        sepLine :: (renderMessages (mkConfig re terms opts lines.length)
          (pySliceFrom (-((N : Int) + 1))
            (closeIf [] (numberFrom (mkConfig re terms opts lines.length).lineNumberWidth 0 P) ++
              numberBlocks (mkConfig re terms opts lines.length).lineNumberWidth P.length
                (blocksPre ++ [bk]))) ++ rest)) ∧
    (∀ (cfg' : Config) (st st' : ScanState) (l : String), 0 ≤ cfg'.searchContext →
      processLine cfg' st l = .ok st' →
      st'.messages = st.messages ∨
        (st'.messages <:+ (if 0 < st.buffer.length then st.messages ++ [st.buffer]
          else st.messages) ∧
         st'.messages.length ≤ cfg'.searchContext.toNat + 1)) :=
  ⟨search_first_match_window re terms opts N P blocksPre bk bNext suffix lines
      hlines hN hP hpre hbk hnext hPflag hpreflags hkflag,
   fun cfg' st st' l hsc hok => processLine_history_trim cfg' st st' l hsc hok⟩

/-- C4 witness: a concrete scan with context count 1, a prefix line, one
    preceding block, a matching block and a closing boundary block. -/
theorem c4_context_window_and_trim_witness :
    (∃ rest : List String,
      SearchFile.search reNone
          ["junk", "# UVM_INFO one", "# UVM_INFO two zzz", "# UVM_INFO three"]
          ["zzz"] [("SEARCH_CONTEXT", PyVal.pyInt 1)] =
        sepLine :: (renderMessages
          (mkConfig reNone ["zzz"] [("SEARCH_CONTEXT", PyVal.pyInt 1)] 4)
          (pySliceFrom (-(((1 : Nat) : Int) + 1))
            (closeIf []
              (numberFrom
                (mkConfig reNone ["zzz"] [("SEARCH_CONTEXT", PyVal.pyInt 1)] 4).lineNumberWidth
                0 ["junk"]) ++
              numberBlocks
                (mkConfig reNone ["zzz"] [("SEARCH_CONTEXT", PyVal.pyInt 1)] 4).lineNumberWidth
                1 [("# UVM_INFO one", ([] : List String)),
                   ("# UVM_INFO two zzz", ([] : List String))])) ++ rest)) ∧
    (∀ (cfg' : Config) (st st' : ScanState) (l : String), 0 ≤ cfg'.searchContext →
      processLine cfg' st l = .ok st' →
      st'.messages = st.messages ∨
        (st'.messages <:+ (if 0 < st.buffer.length then st.messages ++ [st.buffer]
          else st.messages) ∧
         st'.messages.length ≤ cfg'.searchContext.toNat + 1)) :=
  c4_context_window_and_trim reNone ["zzz"] [("SEARCH_CONTEXT", PyVal.pyInt 1)] 1
    ["junk"] [("# UVM_INFO one", [])] ("# UVM_INFO two zzz", []) "# UVM_INFO three" []
    ["junk", "# UVM_INFO one", "# UVM_INFO two zzz", "# UVM_INFO three"]
    (by decide) (by decide) (by decide) (by decide) (by decide) (by decide)
    (by decide) (by decide) (by decide)

/-- With an empty term set the per-line match-state update ignores the
    regex engine and the AND/OR mode: it equals the update under the
    term-erased configuration. -/
theorem flagStep_no_terms (cfg : Config) (hs : cfg.searchStrings = [])
    (hn : cfg.searchStringsCount = 0) (dm : List String × Bool) (line fline : String) :
    flagStep cfg dm line fline = flagStep (eraseTerms cfg) dm line fline := by
  cases hex : cfg.searchExclusive <;>
    simp [flagStep, eraseTerms, hs, hn, hex, updMatches, orMatch]

/-- With an empty term set the processing of one line equals its
    processing under the term-erased configuration. -/
theorem processLine_eraseTerms (cfg : Config) (hs : cfg.searchStrings = [])
    (hn : cfg.searchStringsCount = 0) (st : ScanState) (l : String) :
    processLine cfg st l = processLine (eraseTerms cfg) st l := by
  simp only [processLine, flagStep_no_terms cfg hs hn]
  rfl

/-- With an empty term set the whole scan equals the scan under the
    term-erased configuration: the output is independent of the regex
    engine and of the AND/OR combination mode. -/
theorem processLines_eraseTerms (cfg : Config) (hs : cfg.searchStrings = [])
    (hn : cfg.searchStringsCount = 0) (ls : List String) :
    ∀ st : ScanState, processLines cfg st ls = processLines (eraseTerms cfg) st ls := by
  induction ls with
  | nil =>
    intro st
    rfl
  | cons l rest ih =>
    intro st
    simp only [processLines]
    rw [processLine_eraseTerms cfg hs hn st l]
    cases processLine (eraseTerms cfg) st l with
    | error t => rfl
    | ok st' => exact ih st'

/-- With an empty term set and no force rule firing on a line, the
    match-state update leaves the pair unchanged. -/
theorem flagStep_no_force_no_terms (cfg : Config) (dm : List String × Bool)
    (line fline : String)
    (hs : cfg.searchStrings = []) (hn : cfg.searchStringsCount = 0)
    (hf : strStartsWith cfg.uvmFatalString fline = false)
    (he : (cfg.alwaysShowErrors && strStartsWith cfg.uvmErrorString fline) = false)
    (hw : (cfg.alwaysShowWarnings && strStartsWith cfg.uvmWarningString fline) = false) :
    flagStep cfg dm line fline = dm := by
  cases hex : cfg.searchExclusive <;>
    simp [flagStep, hs, hn, hex, hf, he, hw, updMatches, orMatch]

/-- With an empty term set and no line on which a force rule fires, the
    scan emits nothing. -/
theorem processLines_no_force_empty (cfg : Config)
    (hs : cfg.searchStrings = []) (hn : cfg.searchStringsCount = 0) (ls : List String) :
    ∀ st : ScanState,
    (∀ l ∈ ls, strStartsWith cfg.uvmFatalString (flineOf cfg (cleanLine l)) = false ∧
      (cfg.alwaysShowErrors &&
        strStartsWith cfg.uvmErrorString (flineOf cfg (cleanLine l))) = false ∧
      (cfg.alwaysShowWarnings &&
        strStartsWith cfg.uvmWarningString (flineOf cfg (cleanLine l))) = false) →
    st.matchFlag = false → st.context = 0 → st.text = [] →
    processLines cfg st ls = [] := by
  induction ls with
  | nil =>
    intro st hl hm hc ht
    show postLoop cfg st = []
    simp [postLoop, hm, hc, ht]
  | cons l rest ih =>
    intro st hl hm hc ht
    obtain ⟨hf, he, hw⟩ := hl l (by simp)
    simp only [processLines]
    cases hE : strContains cfg.endOfTestString (flineOf cfg (cleanLine l)) with
    | true =>
      rw [processLine_eot cfg st l hE]
      show (boundaryUpdate cfg st).text = []
      rw [boundaryUpdate_no_flush cfg st hm (by rw [hc]; simp)]
      exact ht
    | false =>
      cases hH : strStartsWith cfg.uvmMessageString (flineOf cfg (cleanLine l)) with
      | false =>
        rw [processLine_not_boundary cfg st l hH hE]
        show processLines cfg _ rest = []
        refine ih _ (fun x hx => hl x (by simp [hx])) ?_ ?_ ?_
        · show (flagStep cfg (st.matchesDict, st.matchFlag) (cleanLine l)
            (flineOf cfg (cleanLine l))).2 = false
          rw [flagStep_no_force_no_terms cfg _ _ _ hs hn hf he hw]
          exact hm
        · exact hc
        · exact ht
      | true =>
        rw [processLine_header cfg st l hH hE]
        show processLines cfg _ rest = []
        refine ih _ (fun x hx => hl x (by simp [hx])) ?_ ?_ ?_
        · show (flagStep cfg (st.matchesDict, false) (cleanLine l)
            (flineOf cfg (cleanLine l))).2 = false
          rw [flagStep_no_force_no_terms cfg _ _ _ hs hn hf he hw]
        · show (boundaryUpdate cfg st).context = 0
          rw [boundaryUpdate_no_flush cfg st hm (by rw [hc]; simp)]
          exact hc
        · show (boundaryUpdate cfg st).text = []
          rw [boundaryUpdate_no_flush cfg st hm (by rw [hc]; simp)]
          exact ht

/-- C9 (amended): with an empty term set the scan always succeeds and no
    term matching occurs in either mode — the output is identical for any
    two regex engines and unchanged by any `SEARCH_EXCLUSIVE` setting —
    and when additionally no line triggers a fatal/error/warning force
    rule under the given options, the output is empty, so everything ever
    shown comes from the force rules.  The spec's further promise that
    every forced block appears with its full context is false: a forced
    block flushed only by the post-loop path loses one deserved context
    block (see the counterexample). -/
theorem c9_empty_terms_only_forced (re re2 : String → String → Bool)
    (lines : List String) (opts : List (String × PyVal)) (v : PyVal) :
    SearchFile.search re lines [] opts = SearchFile.search re2 lines [] opts ∧
    SearchFile.search re lines [] (("SEARCH_EXCLUSIVE", v) :: opts) =
      SearchFile.search re lines [] opts ∧
    ((∀ l ∈ lines,
        strStartsWith (markerUnder opts UVM_FATAL) (flineUnder opts l) = false ∧
        (optEnabled opts "SHOW_ERRORS" &&
          strStartsWith (markerUnder opts UVM_ERROR) (flineUnder opts l)) = false ∧
        (optEnabled opts "SHOW_WARNINGS" &&
          strStartsWith (markerUnder opts UVM_WARNING) (flineUnder opts l)) = false) →
      SearchFile.search re lines [] opts = []) := by
  have hs1 : (mkConfig re [] opts lines.length).searchStrings = [] := by
    simp [mkConfig]
  have hs2 : (mkConfig re2 [] opts lines.length).searchStrings = [] := by
    simp [mkConfig]
  have hs3 : (mkConfig re [] (("SEARCH_EXCLUSIVE", v) :: opts) lines.length).searchStrings
      = [] := by
    simp [mkConfig]
  refine ⟨?_, ?_, ?_⟩
  · show processLines (mkConfig re [] opts lines.length) initState lines =
      processLines (mkConfig re2 [] opts lines.length) initState lines
    rw [processLines_eraseTerms _ hs1 rfl lines initState,
      processLines_eraseTerms _ hs2 rfl lines initState]
    rfl
  · show processLines (mkConfig re [] (("SEARCH_EXCLUSIVE", v) :: opts) lines.length)
      initState lines =
      processLines (mkConfig re [] opts lines.length) initState lines
    rw [processLines_eraseTerms _ hs3 rfl lines initState,
      processLines_eraseTerms _ hs1 rfl lines initState]
    rfl
  · intro hforce
    have hforce' : ∀ l ∈ lines,
        strStartsWith (mkConfig re [] opts lines.length).uvmFatalString
          (flineOf (mkConfig re [] opts lines.length) (cleanLine l)) = false ∧
        ((mkConfig re [] opts lines.length).alwaysShowErrors &&
          strStartsWith (mkConfig re [] opts lines.length).uvmErrorString
            (flineOf (mkConfig re [] opts lines.length) (cleanLine l))) = false ∧
        ((mkConfig re [] opts lines.length).alwaysShowWarnings &&
          strStartsWith (mkConfig re [] opts lines.length).uvmWarningString
            (flineOf (mkConfig re [] opts lines.length) (cleanLine l))) = false := hforce
    show processLines (mkConfig re [] opts lines.length) initState lines = []
    exact processLines_no_force_empty (mkConfig re [] opts lines.length) hs1 rfl lines
      initState hforce' rfl rfl rfl

/-- C9 witness: a concrete empty-term scan — engine- and mode-independent
    and empty when nothing is forced. -/
theorem c9_empty_terms_only_forced_witness :
    (SearchFile.search reNone ["# UVM_INFO hello", "plain"] [] [] =
      SearchFile.search (fun _ _ => true) ["# UVM_INFO hello", "plain"] [] []) ∧
    (SearchFile.search reNone ["# UVM_INFO hello", "plain"] []
        [("SEARCH_EXCLUSIVE", PyVal.pyBool true)] =
      SearchFile.search reNone ["# UVM_INFO hello", "plain"] [] []) ∧
    SearchFile.search reNone ["# UVM_INFO hello", "plain"] [] [] = [] := by
  have h := c9_empty_terms_only_forced reNone (fun _ _ => true)
    ["# UVM_INFO hello", "plain"] [] (PyVal.pyBool true)
  exact ⟨h.1, h.2.1, h.2.2 (by decide)⟩
